import Mathlib

/-
  A shallow embedding of the poefixer currency postprocessor
  (poefixer/postprocess/currency.py) together with the parts of the data
  model it touches (poefixer/db.py), and proofs about the embedded code.

  Conventions used throughout:

  * Python strings are embedded as `List Char` (named `Str` below), because
    every operation we need (lower, replace, strip, startswith, split) is
    then a structural recursion that the kernel can evaluate.
  * Python floats are embedded as rational numbers (`Rat`).  The float
    values arising in this code are parsed decimal literals and the results
    of field operations on them, so rational arithmetic reproduces the
    branch structure exactly; rounding behaviour is not modelled.  The one
    operation with no rational counterpart is `math.sqrt`: instead of the
    standard deviation we carry its square (the variance), and every
    comparison the source makes against the standard deviation is expressed
    through its squared equivalent (see `stddev_gt_half_mean` and the
    outlier filter in `get_mean_and_std`).
  * Fallible Python code is embedded in `Except PyErr`; each uncaught
    exception class that can actually be raised gets a `PyErr` constructor.
  * Database tables are lists of rows; SQLAlchemy queries become filters,
    `one_or_none` becomes `oneOrNone` (raising on more than one row),
    `ORDER BY` becomes `List.insertionSort` with the corresponding
    ordering, and `LIMIT bs OFFSET off` becomes `List.drop off` followed
    by `List.take bs`.
  * The several calls of `int(time.time())` made while processing a single
    row are modelled as a single instant `now`, passed in explicitly.
  * The module `poefixer/postprocess/currency_names.py` (PRICE_RE,
    PRICE_WITH_SPACE_RE, OFFICIAL_CURRENCIES, UNOFFICIAL_CURRENCIES) and
    the `CurrencySummary` declaration are imported by the sources but are
    not part of the source tree; they are modelled from the spec where
    needed, and each such definition is marked `Modelled from the spec:`.
-/

namespace Poefixer

/-- Python strings, embedded as lists of characters. -/
abbrev Str := List Char

/-- Python `str.lower()` for the ASCII range (the only range exercised by
this code).  Uppercase ASCII letters are shifted by 32, everything else is
unchanged. -/
def pyLowerChar (c : Char) : Char :=
  if h : 65 ≤ c.toNat ∧ c.toNat ≤ 90 then
    Char.ofNatAux (c.toNat + 32) (Or.inl (by omega))
  else c

/-- Python `str.lower()` on a whole string. -/
def pyLower (s : Str) : Str := s.map pyLowerChar

/-- Python `name.replace(' ', '-')` character by character (both pattern and
replacement are single characters, so `replace` acts pointwise). -/
def dashedChar (c : Char) : Char := if c = ' ' then '-' else c

/-- The local helper `dashed` of `get_actual_currencies`:
`name.replace(' ', '-')`. -/
def dashed (s : Str) : Str := s.map dashedChar

/-- The apostrophe character, written via its code point. -/
def apos : Char := Char.ofNat 39

/-- The local helper `dashed_clean` of `get_actual_currencies`:
`dashed(name).replace("'", "")`, i.e. the dashed form with apostrophes
removed. -/
def dashed_clean (s : Str) : Str := (dashed s).filter (fun c => c ≠ apos)

/-- Python `s.startswith(pre)`. -/
def pyStartsWith (s pre : Str) : Bool := pre.isPrefixOf s

/-- Whitespace as far as this code is concerned (the strings involved are
single-line item names and notes). -/
def isPySpace (c : Char) : Bool := c = ' '

/-- Python `str.strip()` restricted to spaces. -/
def pyStrip (s : Str) : Str :=
  ((s.dropWhile isPySpace).reverse.dropWhile isPySpace).reverse

/-- Truthiness of an optional string (`None` and the empty string are
falsy, everything else truthy). -/
def optStrTruthy : Option Str → Bool
  | none => false
  | some s => s ≠ []

/-- Truthiness of `row_id` in the driver: `None` and `0` are falsy. -/
def optNatTruthy : Option Nat → Bool
  | none => false
  | some n => n ≠ 0

/-- Truthiness of an optional float (Python treats `None` and `0.0` as
falsy); used for `high_score` in `find_value_of` and for `self.recent`. -/
def optRatTruthy : Option Rat → Bool
  | none => false
  | some x => x ≠ 0

/-- The uncaught Python exceptions this code can raise. `fuelExhausted` is
an artifact of the embedding: the driver's `while` loop is embedded with an
explicit fuel parameter, and `currency_processor_single_pass` passes fuel
that is provably sufficient, so this constructor never arises from the
entry points as called. -/
inductive PyErr where
  | zeroDivisionError
  | attributeError
  | typeError
  | multipleResultsFound
  | fuelExhausted
deriving Repr, DecidableEq

/-- SQLAlchemy `Query.one_or_none()`: `None` on no row, the row on exactly
one, and a raised `MultipleResultsFound` otherwise. -/
def oneOrNone : List α → Except PyErr (Option α)
  | [] => .ok none
  | [x] => .ok (some x)
  | _ => .error .multipleResultsFound

/-- Python dicts from strings to strings, embedded as association lists
with unique keys maintained by `dictInsert`. -/
abbrev Dict := List (Str × Str)

/-- Dict assignment `m[k] = v`: overwrite in place if the key is present,
append otherwise (Python dicts keep insertion order). -/
def dictInsert : Dict → Str → Str → Dict
  | [], k, v => [(k, v)]
  | (k₀, v₀) :: m, k, v =>
    if k₀ = k then (k₀, v) :: m else (k₀, v₀) :: dictInsert m k v

/-- Building a dict from a list of pairs (later pairs win), as a Python
dict comprehension does. -/
def dictOfPairs (ps : List (Str × Str)) : Dict :=
  ps.foldl (fun m kv => dictInsert m kv.1 kv.2) []

/-- Python `dict.update`: insert every pair, later pairs winning. -/
def dictUpdate (m : Dict) (ps : List (Str × Str)) : Dict :=
  ps.foldl (fun m kv => dictInsert m kv.1 kv.2) m

/-- Dict lookup; with unique keys the first match is the binding. -/
def dictFind? (m : Dict) (k : Str) : Option Str :=
  (m.find? (fun kv => kv.1 = k)).map (fun kv => kv.2)

/-- Python `k in m`. -/
def dictContains (m : Dict) (k : Str) : Bool := (dictFind? m k).isSome

/-- Python `float()` on the strings that can reach it here.  The argument
is drawn from the amount character class (digits, dots and slashes), on
which `float` succeeds exactly on decimal literals: at least one digit, at
most one dot, nothing else.  A failure is a `ValueError` whose message
contains the word `float`, which `parse_note` catches; it is therefore
modelled as `none` rather than as a `PyErr`. -/
def parseFloat (s : Str) : Option Rat :=
  if s.all (fun c => c.isDigit || c = '.') ∧ s.count '.' ≤ 1 ∧ s.any (fun c => c.isDigit) then
    let intPart := s.takeWhile (fun c => c ≠ '.')
    let fracPart := (s.dropWhile (fun c => c ≠ '.')).drop 1
    let intVal : Nat := intPart.foldl (fun a c => a * 10 + (c.toNat - 48)) 0
    let fracVal : Nat := fracPart.foldl (fun a c => a * 10 + (c.toNat - 48)) 0
    some ((intVal : Rat) + (fracVal : Rat) / ((10 : Rat) ^ fracPart.length))
  else none

/-- Python `amt.split('/', 1)`: the part before the first slash and the
part after it. -/
def splitFirstSlash (s : Str) : Str × Str :=
  (s.takeWhile (fun c => c ≠ '/'), (s.dropWhile (fun c => c ≠ '/')).drop 1)

/-- The amount conversion inside `parse_note`'s `try` block:
`float(num)/float(den)` when the amount contains a slash, plain `float`
otherwise.  `.ok none` is a caught numeric `ValueError` (the caller falls
through to `(None, None)`); a zero denominator raises an uncaught
`ZeroDivisionError`, exactly as CPython's float division does. -/
def convertAmount (amt : Str) : Except PyErr (Option Rat) :=
  if ('/' ∈ amt) then
    let (numStr, denStr) := splitFirstSlash amt
    match parseFloat numStr, parseFloat denStr with
    | some a, some b =>
      if b = 0 then .error .zeroDivisionError else .ok (some (a / b))
    | _, _ => .ok none
  else
    match parseFloat amt with
    | some a => .ok (some a)
    | none => .ok none

/-- Modelled from the spec: the two regexes of the missing module
`poefixer/postprocess/currency_names.py`.  Spec section 4.1: both capture
`(sale_type, amount, currency_token)`; `sale_type` is `price` or `b/o`;
the primary form (`PRICE_RE`, here `strict`) accepts no spaces in the
currency token, while the fallback form (`PRICE_WITH_SPACE_RE`, here
`withSpaces`) accepts spaces so that names like `orb of chance` parse.
Spec section 6.4 gives the grammar: marker `~price`/`~b/o`, a space, an
amount, a space, the currency token (alphanumerics and apostrophes,
optionally with spaces in the fallback form). -/
inductive PriceRegex where
  | strict
  | withSpaces
deriving Repr, DecidableEq

/-- The character class of the amount group.  Spec section 4.1: the amount
is a decimal literal or `num/den`; the captured group ranges over digits,
dots and slashes (numeric parse failures such as `1.2.3` match the group
and then fail in `float()`, the case the spec's error policy describes). -/
def isAmountChar (c : Char) : Bool := c.isDigit || c = '.' || c = '/'

/-- The character class of the currency token of the fallback regex:
alphanumerics, apostrophes and spaces (spec section 6.4). -/
def isLooseCurrencyChar (c : Char) : Bool := c.isAlphanum || c = apos || c = ' '

/-- Attempt to match a price annotation anchored at the start of `s`,
returning the three captured groups `(sale_type, amount, currency)`.
Greedy token runs followed by a mandatory space reproduce the regex's
behaviour on these patterns, since a space can end but not extend any of
the runs involved. -/
def matchPriceAt (re : PriceRegex) (s : Str) : Option (Str × Str × Str) :=
  match s with
  | '~' :: rest =>
    let saleTypeAndRest : Option (Str × Str) :=
      if (("price").data).isPrefixOf rest then
        some (("price").data, rest.drop 5)
      else if (("b/o").data).isPrefixOf rest then
        some (("b/o").data, rest.drop 3)
      else none
    match saleTypeAndRest with
    | none => none
    | some (saleType, r1) =>
      let sp1 := r1.takeWhile isPySpace
      let r2 := r1.dropWhile isPySpace
      let amt := r2.takeWhile isAmountChar
      let r3 := r2.dropWhile isAmountChar
      let sp2 := r3.takeWhile isPySpace
      let r4 := r3.dropWhile isPySpace
      let cur :=
        match re with
        | .strict => r4.takeWhile (fun c => !(isPySpace c))
        | .withSpaces => r4.takeWhile isLooseCurrencyChar
      if sp1 ≠ [] ∧ amt ≠ [] ∧ sp2 ≠ [] ∧ cur ≠ [] then
        some (saleType, amt, cur)
      else none
  | _ => none

/-- Python `regex.search(note)`: try to match at every position from left
to right, returning the first successful match's groups. -/
def searchPrice (re : PriceRegex) : Str → Option (Str × Str × Str)
  | [] => none
  | c :: rest =>
    match matchPriceAt re (c :: rest) with
    | some g => some g
    | none => searchPrice re rest

/-- Modelled from the spec: the static alias table `OFFICIAL_CURRENCIES`
of the missing module `currency_names.py`.  The spec does not list the
table's contents; its end-to-end scenario (section 8) forces at least the
entries `chaos -> Chaos Orb` and `exa -> Exalted Orb`, which are the only
ones any claim touches, so the model carries exactly those.  Theorems that
depend on the tables' exact contents take the tables as parameters
instead. -/
def OFFICIAL_CURRENCIES : Dict :=
  [(("chaos").data, ("Chaos Orb").data), (("exa").data, ("Exalted Orb").data)]

/-- Modelled from the spec: the static alias table `UNOFFICIAL_CURRENCIES`
of the missing module `currency_names.py`.  No entry of it is forced by
the spec's scenarios, so the model is empty; theorems that depend on the
tables' contents take them as parameters. -/
def UNOFFICIAL_CURRENCIES : Dict := []

/-- Outcome of running one regex pass of `parse_note` over a note. -/
inductive NoteOutcome where
  | noMatch
  | floatFail
  | unknownCurrency
  | priced (amt : Rat) (cur : Str)
deriving Repr, DecidableEq

/-- One regex pass of `CurrencyPostprocessor.parse_note` (currency.py
lines 101-126): search, destructure the groups, convert the amount
(possibly raising `ZeroDivisionError`, possibly a caught numeric
`ValueError`), then resolve the lowercased currency token against the
official, unofficial and dynamic alias tables in that order.
`unknownCurrency` is the `elif currency:` branch in which the token
resolves against no table (the token is nonempty by construction, mirroring
the truthiness test). -/
def parse_note_one (off unoff actual : Dict) (re : PriceRegex) (s : Str) :
    Except PyErr NoteOutcome := do
  match searchPrice re s with
  | none => return .noMatch
  | some (_saleType, amtStr, currency) =>
    let low_cur := pyLower currency
    match ← convertAmount amtStr with
    | none => return .floatFail
    | some amt =>
      match dictFind? off low_cur with
      | some full => return .priced amt full
      | none =>
        match dictFind? unoff low_cur with
        | some full => return .priced amt full
        | none =>
          match dictFind? actual low_cur with
          | some full => return .priced amt full
          | none =>
            if currency ≠ [] then return .unknownCurrency
            else return .noMatch

/-- `CurrencyPostprocessor.parse_note` (currency.py lines 92-133).  The
`regex` argument mirrors the Python keyword argument: when it is `none`
the primary regex is used and an unknown currency triggers one retry with
the space-tolerant regex (the recursive call in the source); when a regex
is passed explicitly an unknown currency merely logs a warning and falls
through to `(None, None)`.  A caught numeric `ValueError` also falls
through to `(None, None)`; `ZeroDivisionError` propagates. -/
def parse_note (off unoff actual : Dict) (regex : Option PriceRegex)
    (note : Option Str) : Except PyErr (Option (Rat × Str)) := do
  match note with
  | none => return none
  | some s =>
    match regex with
    | some re =>
      match ← parse_note_one off unoff actual re s with
      | .priced amt cur => return some (amt, cur)
      | _ => return none
    | none =>
      match ← parse_note_one off unoff actual .strict s with
      | .priced amt cur => return some (amt, cur)
      | .unknownCurrency =>
        match ← parse_note_one off unoff actual .withSpaces s with
        | .priced amt cur => return some (amt, cur)
        | _ => return none
      | _ => return none

deriving instance DecidableEq for Except

/-- A row of the `stash` table (db.py lines 48-66), restricted to the
columns the currency postprocessor reads.  `stash` is the user-visible
display name and is nullable. -/
structure StashRow where
  id : Nat
  stash : Option Str
  public : Bool
deriving Repr, DecidableEq

/-- A row of the `item` table (db.py lines 73-139), restricted to the
columns the currency postprocessor reads.  `category` is a JSON object in
the source; only membership of its top-level keys is ever tested, so it is
embedded as the list of those keys.  (The column is nullable in db.py; a
null category would itself raise in `_process_sale`, a path no claim
exercises, so the embedding keeps the key list total.) -/
structure ItemRow where
  id : Nat
  api_id : Str
  stash_id : Nat
  league : Str
  name : Str
  typeLine : Str
  note : Option Str
  category : List Str
  created_at : Int
  updated_at : Int
deriving Repr, DecidableEq

/-- A row of the `sale` table as the currency postprocessor uses it.  Note
on `item_updated_at`: currency.py reads and writes a column of that name
(lines 225, 228, 232, 437, 443, 471), but the `Sale` model in src db.py
(lines 147-170) does not declare it; the spec's schema (section 6.2) does.
The embedding follows currency.py and the spec and carries the column; the
mismatch itself is the subject of one of the theorems below, stated over
`db_sale_columns`. -/
structure SaleRow where
  id : Nat
  item_id : Nat
  item_api_id : Str
  name : Str
  is_currency : Bool
  sale_currency : Str
  sale_amount : Rat
  sale_amount_chaos : Option Rat
  item_updated_at : Int
  created_at : Int
  updated_at : Int
deriving Repr, DecidableEq

/-- Modelled from the spec: a row of the `currency_summary` table.  The
`CurrencySummary` model is referenced throughout currency.py but its
declaration is not in the source tree; the spec (section 6.2) gives the
schema.  The source stores the weighted standard deviation in a column
`standard_dev`; the embedding stores its square in `variance` instead
(see the header comment), which is faithful because no code path reads the
stored value back. -/
structure CurrencySummaryRow where
  from_currency : Str
  to_currency : Str
  league : Str
  count : Nat
  mean : Rat
  variance : Rat
  weight : Rat
  created_at : Int
  updated_at : Int
deriving Repr, DecidableEq

/-- The columns declared on the `Sale` model in src db.py, lines 154-170,
in declaration order. -/
def db_sale_columns : List String :=
  ["id", "item_id", "item_api_id", "name", "is_currency", "sale_currency",
   "sale_amount", "sale_amount_chaos", "created_at", "updated_at"]

/-- The keyword arguments with which `_process_sale` constructs a new
`Sale` row (currency.py lines 428-438). -/
def sale_insert_fields : List String :=
  ["item_id", "item_api_id", "name", "is_currency", "sale_currency",
   "sale_amount", "sale_amount_chaos", "created_at", "item_updated_at",
   "updated_at"]

/-- `CurrencyPostprocessor.get_actual_currencies` (currency.py lines
63-90), as a function of the list of distinct `from_currency` values the
inner query yields (in query order): build the lowercase map, then update
it with the dashed lowercase forms, then with the dashed
apostrophe-stripped forms; within and across these updates later names
overwrite earlier ones, as Python dict comprehensions and `update` do. -/
def get_actual_currencies (full_names : List Str) : Dict :=
  let low := pyLower
  let mapping := dictOfPairs (full_names.map (fun name => (low name, name)))
  let mapping := dictUpdate mapping
    (full_names.map (fun name => (dashed (low name), name)))
  let mapping := dictUpdate mapping
    (full_names.map (fun name => (dashed_clean (low name), name)))
  mapping

/-- Cutoff for considering old data: `int(timedelta(days=15).total_seconds())`
(currency.py line 40). -/
def relevant : Int := 1296000

/-- The weighting increment: `int(timedelta(hours=12).total_seconds())`
(currency.py line 42). -/
def weight_increment : Int := 43200

/-- The inner helper `calc_mean_std` of `_get_mean_and_std` (currency.py
lines 204-209), over (price, weight) pairs, returning the weighted mean
and the weighted variance.  The source applies `math.sqrt` to the
variance; the square root is not representable in `Rat`, so the variance
itself is returned and every later comparison is squared (the call sites
document each translation).  The source's `numpy.average` would raise if
the weight sum were zero; the weights produced by `_get_mean_and_std` are
always positive, so the `Rat` convention `x / 0 = 0` is never exercised on
a behaviour-relevant path. -/
def calc_mean_var (values : List (Rat × Rat)) : Rat × Rat :=
  let total : Rat := (values.map (fun pw => pw.2)).sum
  let mean : Rat := (values.map (fun pw => pw.1 * pw.2)).sum / total
  let variance : Rat :=
    (values.map (fun pw => ((pw.1 - mean) ^ 2) * pw.2)).sum / total
  (mean, variance)

/-- The comparison `stddev > mean/2` of currency.py line 242, expressed on
the variance: since stddev = sqrt variance is nonnegative, it exceeds
`mean/2` exactly when `mean` is negative or `variance > (mean/2)^2`. -/
def stddev_gt_half_mean (variance mean : Rat) : Bool :=
  decide (mean < 0) || decide ((mean / 2) ^ 2 < variance)

/-- The outlier filter `numpy.absolute(prices-mean) <= stddev*2` of
currency.py line 247, expressed on the variance: both sides are
nonnegative, so the comparison squares to `(p - mean)^2 <= 4*variance`. -/
def within_two_stddev (variance mean p : Rat) : Bool :=
  decide ((p - mean) ^ 2 ≤ 4 * variance)

/-- The `values` array of `_get_mean_and_std` (currency.py lines 215-233):
the sale/item join and its filters become list filters (the join on the
primary key `Item.id` is embedded with an existence test, faithful because
primary keys are unique), and each remaining sale contributes its amount
paired with the weight `weight_increment / max(1, sale_time - t)`. -/
def gmas_values (sales : List SaleRow) (items : List ItemRow)
    (name currency league : Str) (sale_time : Int) (now : Int) :
    List (Rat × Rat) :=
  let rows := sales.filter (fun s =>
    s.name = name ∧ s.sale_currency = currency ∧
    s.item_updated_at > now - relevant ∧
    (items.any (fun i => i.id = s.item_id ∧ i.league = league)))
  rows.map (fun s =>
    (s.sale_amount,
     (weight_increment : Rat) / ((max 1 (sale_time - s.item_updated_at) : Int) : Rat)))

/-- `CurrencyPostprocessor._get_mean_and_std` (currency.py lines 188-258).
Returns `none` for the source's `(None, None, None, None)`, and otherwise
the weighted mean, weighted variance (the square of the source's standard
deviation), total weight and row count, after at most one
outlier-rejection pass. -/
def get_mean_and_std (sales : List SaleRow) (items : List ItemRow)
    (name currency league : Str) (sale_time : Int) (now : Int) :
    Option (Rat × Rat × Rat × Nat) :=
  let values := gmas_values sales items name currency league sale_time now
  if values.length = 0 then none
  else
    let mv := calc_mean_var values
    let count := values.length
    let total_weight : Rat := (values.map (fun pw => pw.2)).sum
    if count > 3 ∧ stddev_gt_half_mean mv.2 mv.1 then
      let kept := values.filter (fun pw => within_two_stddev mv.2 mv.1 pw.1)
      let mv2 := calc_mean_var kept
      some (mv2.1, mv2.2, (kept.map (fun pw => pw.2)).sum, kept.length)
    else
      some (mv.1, mv.2, total_weight, count)

/-- `CurrencyPostprocessor._update_currency_summary` (currency.py lines
260-313).  `recent` mirrors `self.recent` (with Python truthiness: `None`
and `0` disable the cache); the three `int(time.time())` calls are the
single instant `now`.  The SQL UPDATE is embedded as a map over the rows
matching the key, the INSERT as an append.  Raises only what the source
can raise (`one_or_none` on duplicate keys). -/
def update_currency_summary (recent : Option Int)
    (sales : List SaleRow) (items : List ItemRow)
    (summaries : List CurrencySummaryRow)
    (name currency league : Str) (sale_time : Int) (now : Int) :
    Except PyErr (List CurrencySummaryRow) := do
  let existing ← oneOrNone (summaries.filter (fun r =>
    r.from_currency = name ∧ r.to_currency = currency ∧ r.league = league))
  let cached : Bool :=
    match recent, existing with
    | some rec, some e => rec ≠ 0 ∧ e.count ≥ 10 ∧ e.updated_at ≥ now - rec
    | _, _ => false
  if cached then return summaries
  else
    match get_mean_and_std sales items name currency league sale_time now with
    | none => return summaries
    | some (weighted_mean, weighted_var, weight, count) =>
      match existing with
      | some _ =>
        return summaries.map (fun r =>
          if r.from_currency = name ∧ r.to_currency = currency ∧ r.league = league then
            { r with count := count, mean := weighted_mean, weight := weight,
                     variance := weighted_var, updated_at := now }
          else r)
      | none =>
        return summaries ++
          [{ from_currency := name, to_currency := currency, league := league,
             count := count, mean := weighted_mean, weight := weight,
             variance := weighted_var, created_at := now, updated_at := now }]

/-- The weight-descending order used by `find_value_of`'s
`order_by(CurrencySummary.weight.desc())`. -/
def weightDesc (a b : CurrencySummaryRow) : Prop := b.weight ≤ a.weight

instance : DecidableRel weightDesc := fun a b => by
  unfold weightDesc
  infer_instance

/-- Result of one iteration of the row loop in `find_value_of`: either
fall through to the next row or `break` out, each with the updated
`(high_score, conversion)` pair. -/
inductive FvNext where
  | cont (hs conv : Option Rat)
  | brk (hs conv : Option Rat)
deriving Repr, DecidableEq

/-- The body of the `for row in query.all()` loop of `find_value_of`
(currency.py lines 349-375), acting on the state `(high_score,
conversion)`.  Python truthiness of `high_score` (`None` and `0.0` falsy)
is mirrored exactly; `query2.one_or_none()` can raise on duplicate keys
and the raise propagates. -/
def fv_step (summaries : List CurrencySummaryRow) (league : Str)
    (hs conv : Option Rat) (row : CurrencySummaryRow) :
    Except PyErr FvNext := do
  if row.to_currency = ("Chaos Orb").data then
    -- `if not high_score or row.weight >= high_score:` then update; break
    -- unconditionally afterwards.
    let takeIt : Bool :=
      match hs with
      | none => true
      | some s => decide (s = 0) || decide (row.weight ≥ s)
    if takeIt then return .brk (some row.weight) (some row.mean)
    else return .brk hs conv
  else
    -- `if high_score and row.weight <= high_score: continue`
    let skip : Bool :=
      match hs with
      | none => false
      | some s => decide (s ≠ 0) && decide (row.weight ≤ s)
    if skip then return .cont hs conv
    else
      let row2? ← oneOrNone (summaries.filter (fun r =>
        r.from_currency = row.to_currency ∧
        r.to_currency = ("Chaos Orb").data ∧ r.league = league))
      match row2? with
      | none => return .cont hs conv
      | some row2 =>
        let score := min row.weight row2.weight
        -- `if (not high_score) or score > high_score:`
        let better : Bool :=
          match hs with
          | none => true
          | some s => decide (s = 0) || decide (score > s)
        if better then return .cont (some score) (some (row.mean * row2.mean))
        else return .cont hs conv

/-- The row loop of `find_value_of`, folding `fv_step` with early exit on
`break`. -/
def fv_loop (summaries : List CurrencySummaryRow) (league : Str)
    (hs conv : Option Rat) : List CurrencySummaryRow →
    Except PyErr (Option Rat × Option Rat)
  | [] => .ok (hs, conv)
  | row :: rows => do
    match ← fv_step summaries league hs conv row with
    | .brk hs2 conv2 => return (hs2, conv2)
    | .cont hs2 conv2 => fv_loop summaries league hs2 conv2 rows

/-- `CurrencyPostprocessor.find_value_of` (currency.py lines 315-394).
The summary table is the explicit `summaries` argument.  After the loop:
with a truthy `high_score` the source computes `conversion * price`
(`conversion` is provably set whenever `high_score` is truthy; were it
`None`, Python would raise a `TypeError`, which the embedding keeps as the
faithful image of that branch); otherwise the inverse-edge fallback runs,
whose `1.0/row.mean` raises `ZeroDivisionError` when the stored mean is
zero. -/
def find_value_of (summaries : List CurrencySummaryRow)
    (name league : Str) (price : Rat) : Except PyErr (Option Rat) := do
  if name = ("Chaos Orb").data then return some price
  else
    let rows := List.insertionSort weightDesc (summaries.filter (fun r =>
      r.from_currency = name ∧ r.league = league))
    let (high_score, conversion) ← fv_loop summaries league none none rows
    if optRatTruthy high_score then
      match conversion with
      | some c => return some (c * price)
      | none => throw .typeError
    else
      let row? ← oneOrNone (summaries.filter (fun r =>
        r.from_currency = ("Chaos Orb").data ∧
        r.to_currency = name ∧ r.league = league))
      match row? with
      | some row =>
        if row.mean = 0 then throw .zeroDivisionError
        else return some ((1 / row.mean) * price)
      | none => return none

/-- `CurrencyPostprocessor._update_currency_pricing` (currency.py lines
175-186): update the summary for a currency sale, then value the sale
currency in chaos.  Returns the chaos value together with the summary
table after the update. -/
def update_currency_pricing (recent : Option Int)
    (sales : List SaleRow) (items : List ItemRow)
    (summaries : List CurrencySummaryRow)
    (name currency league : Str) (price : Rat) (sale_time : Int)
    (is_currency : Bool) (now : Int) :
    Except PyErr (Option Rat × List CurrencySummaryRow) := do
  let summaries ←
    if is_currency then
      update_currency_summary recent sales items summaries
        name currency league sale_time now
    else pure summaries
  let v ← find_value_of summaries currency league price
  return (v, summaries)

/-- A row of the query built by `_currency_query`: the `Item` entity
together with the added columns; of those, the code reads `row.Item.*` and
`row.stash` (the stash display name). -/
structure CurrencyQueryRow where
  Item : ItemRow
  stash : Option Str
  public : Bool
deriving Repr, DecidableEq

/-- Ambient configuration of a `CurrencyPostprocessor` run: the static and
dynamic alias tables (`OFFICIAL_CURRENCIES`, `UNOFFICIAL_CURRENCIES`,
`self.actual_currencies`), the caching parameter `self.recent`, the
`item` and `stash` tables, and the instant standing for the
`int(time.time())` calls. -/
structure Config where
  off : Dict
  unoff : Dict
  actual : Dict
  recent : Option Int
  items : List ItemRow
  stashes : List StashRow
  now : Int
deriving Repr, DecidableEq

/-- The mutable database state a pass threads along: the `sale` and
`currency_summary` tables plus the autoincrement counter assigning primary
keys to new sales (a new sale receives its key at the first flush, which
the source forces by querying right after `session.add`). -/
structure PState where
  sales : List SaleRow
  summaries : List CurrencySummaryRow
  next_sale_id : Nat
deriving Repr, DecidableEq

/-- Parse of a note with `parse_note` called the way `_process_sale` calls
it (no explicit regex, the configured alias tables). -/
def parse_note_cfg (cfg : Config) (note : Option Str) :
    Except PyErr (Option (Rat × Str)) :=
  parse_note cfg.off cfg.unoff cfg.actual none note

/-- The sale upsert block of `_process_sale` (currency.py lines 424-447):
build a fresh `Sale` when no row with this `item_id` exists, otherwise
mutate the existing row.  On insert every column is set; on update only
`sale_currency`, `sale_amount`, `sale_amount_chaos` (cleared to null),
`item_updated_at` and `updated_at` are assigned — `name`, `is_currency`,
`item_api_id` and `created_at` keep their stored values. -/
def upsert_sale (existing : Option SaleRow) (item : ItemRow)
    (name : Str) (is_currency : Bool) (price : Rat) (currency : Str)
    (now : Int) (next_id : Nat) : SaleRow :=
  match existing with
  | none =>
    { id := next_id, item_id := item.id, item_api_id := item.api_id,
      name := name, is_currency := is_currency, sale_currency := currency,
      sale_amount := price, sale_amount_chaos := none, created_at := now,
      item_updated_at := item.updated_at, updated_at := now }
  | some e =>
    { e with sale_currency := currency, sale_amount := price,
             sale_amount_chaos := none, item_updated_at := item.updated_at,
             updated_at := now }

/-- The eligibility test opening `_process_sale` (currency.py lines
397-401): `(row.Item.note and row.Item.note.startswith('~')) or
row.stash.startswith('~')`, with Python's short-circuiting — the stash
side is only evaluated when the note side is falsy, and a null stash name
then raises `AttributeError`. -/
def sale_eligibility (row : CurrencyQueryRow) : Except PyErr Bool :=
  let noteOk : Bool :=
    match row.Item.note with
    | none => false
    | some n => optStrTruthy (some n) && pyStartsWith n [('~')]
  if noteOk then pure true
  else
    match row.stash with
    | none => throw .attributeError
    | some stname => pure (pyStartsWith stname [('~')])

/-- The price-precedence rule of `_process_sale` (currency.py lines
411-413): the item note's parse wins; on `None` fall back to the stash
parse, currency included. -/
def price_with_fallback (itemParsed stashParsed : Option (Rat × Str)) :
    Option (Rat × Str) :=
  match itemParsed with
  | none => stashParsed
  | some pc => some pc

/-- `CurrencyPostprocessor._process_sale` (currency.py lines 396-462).
Returns the sale's primary key (or `none` when no sale) together with the
updated database state.  Faithfulness notes: the eligibility test
evaluates `row.stash.startswith` only when the item-note conjunct is
falsy, so a null stash name raises `AttributeError` exactly then; the
stash note is parsed before the item note, as in the source; the new or
updated sale is visible to `_update_currency_pricing`'s queries
(autoflush); and a non-null chaos value is written back onto the sale
row. -/
def process_sale (cfg : Config) (st : PState) (row : CurrencyQueryRow) :
    Except PyErr (Option Nat × PState) := do
  let eligible : Bool ← sale_eligibility row
  if !eligible then return (none, st)
  else
    let is_currency : Bool := row.Item.category.contains (("currency").data)
    let name : Str :=
      if is_currency then row.Item.typeLine
      else pyStrip (row.Item.name ++ [(' ')] ++ row.Item.typeLine)
    let stashParsed ← parse_note_cfg cfg row.stash
    let itemParsed ← parse_note_cfg cfg row.Item.note
    match price_with_fallback itemParsed stashParsed with
    | none => return (none, st)
    | some (price, currency) =>
      if price = 0 then return (none, st)
      else
        let existing ← oneOrNone (st.sales.filter (fun s => s.item_id = row.Item.id))
        let sale := upsert_sale existing row.Item name is_currency price currency
          cfg.now st.next_sale_id
        let sales₁ :=
          match existing with
          | none => st.sales ++ [sale]
          | some _ => st.sales.map (fun s => if s.item_id = row.Item.id then sale else s)
        let next₁ :=
          match existing with
          | none => st.next_sale_id + 1
          | some _ => st.next_sale_id
        let league := row.Item.league
        let (amount_chaos, summaries₁) ← update_currency_pricing cfg.recent
          sales₁ cfg.items st.summaries name currency league price
          row.Item.updated_at is_currency cfg.now
        let sales₂ :=
          match amount_chaos with
          | none => sales₁
          | some _ => sales₁.map (fun s =>
              if s.item_id = row.Item.id then
                { s with sale_amount_chaos := amount_chaos } else s)
        return (some sale.id, ⟨sales₂, summaries₁, next₁⟩)

/-- The filtered, joined and sorted item stream underlying
`_currency_query` (currency.py lines 135-173) before LIMIT/OFFSET: join
`item` to `stash` on the stash primary key, keep public stashes, keep
items updated at or after `start` when given, and order by
`(updated_at, created_at, id)` ascending. -/
def itemKeyLe (a b : CurrencyQueryRow) : Prop :=
  a.Item.updated_at < b.Item.updated_at ∨
    (a.Item.updated_at = b.Item.updated_at ∧
      (a.Item.created_at < b.Item.created_at ∨
        (a.Item.created_at = b.Item.created_at ∧ a.Item.id ≤ b.Item.id)))

instance : DecidableRel itemKeyLe := fun a b => by
  unfold itemKeyLe
  infer_instance

instance : IsTotal CurrencyQueryRow itemKeyLe := by
  constructor
  intro a b
  unfold itemKeyLe
  omega

instance : IsTrans CurrencyQueryRow itemKeyLe := by
  constructor
  intro a b c
  unfold itemKeyLe
  omega

/-- The rows matching `_currency_query`'s join and filters, before
ordering: join `item` to `stash` on the stash primary key (unique, so
`find?` is the join), keep public stashes, and keep items updated at or
after `start` when it is given. -/
def currency_matching (items : List ItemRow) (stashes : List StashRow)
    (start : Option Int) : List CurrencyQueryRow :=
  let joined := items.filterMap (fun i =>
    (stashes.find? (fun st => st.id = i.stash_id)).map (fun st =>
      ({ Item := i, stash := st.stash, public := st.public } : CurrencyQueryRow)))
  joined.filter (fun r =>
    r.public &&
    (match start with
     | none => true
     | some t => decide (r.Item.updated_at ≥ t)))

/-- The join, filters and ordering of `_currency_query`, without
LIMIT/OFFSET. -/
def currency_join_sorted (items : List ItemRow) (stashes : List StashRow)
    (start : Option Int) : List CurrencyQueryRow :=
  List.insertionSort itemKeyLe (currency_matching items stashes start)

/-- `CurrencyPostprocessor._currency_query` (currency.py lines 135-173):
the sorted filtered join, cut to `block_size` rows starting at `offset`
(SQL `LIMIT block_size OFFSET offset`; a zero offset adds no OFFSET
clause, which coincides with dropping zero rows). -/
def currency_query (items : List ItemRow) (stashes : List StashRow)
    (start : Option Int) (block_size offset : Nat) : List CurrencyQueryRow :=
  ((currency_join_sorted items stashes start).drop offset).take block_size

/-- The `for row in query.all()` body of
`_currency_processor_single_pass` (currency.py lines 544-558) over one
block: rows whose note and stash name are both falsy are skipped without
touching `count`; every other row goes through `_process_sale`, `count`
is incremented, and a truthy returned id becomes `last_row`. -/
def block_fold (cfg : Config) (st : PState) :
    List CurrencyQueryRow → Nat → Option Nat →
    Except PyErr (Nat × Option Nat × PState)
  | [], count, last_row => .ok (count, last_row, st)
  | row :: rows, count, last_row => do
    if !(optStrTruthy row.Item.note || optStrTruthy row.stash) then
      block_fold cfg st rows count last_row
    else
      let (row_id, st₂) ← process_sale cfg st row
      let last₂ := if optNatTruthy row_id then row_id else last_row
      block_fold cfg st₂ rows (count + 1) last₂

/-- The observable outcome of one driver pass.  `fetched` records, in
order, every row the `for` loop iterated over (skipped rows included) and
`commits` counts the `session.commit()` calls; both are observational
instrumentation of the source's behaviour, not extra program state. -/
structure PassResult where
  all_processed : Nat
  last_row : Option Nat
  commits : Nat
  fetched : List CurrencyQueryRow
  state : PState
deriving Repr, DecidableEq

/-- The `while todo:` loop of `_currency_processor_single_pass`
(currency.py lines 537-563).  The loop is embedded with an explicit
`fuel` bound on the number of iterations so that it remains a structural
recursion the kernel can evaluate; `currency_processor_single_pass`
supplies fuel exceeding the joined row count, and every continued
iteration advances `offset` by a full block of 1000 rows, so the
`fuelExhausted` branch is an unreachable embedding artifact.  Each
iteration fetches a block of `block_size = 1000` rows at `offset`, folds
the row body over it, sets `todo` to whether the *processed* count — not
the fetched count — equals `block_size`, advances `offset` by that
processed count, and commits. -/
def pass_loop (cfg : Config) (items : List ItemRow)
    (stashes : List StashRow) (start : Option Int) :
    Nat → PState → Nat → Nat → Option Nat → Nat → List CurrencyQueryRow →
    Except PyErr PassResult
  | 0, _, _, _, _, _, _ => .error .fuelExhausted
  | fuel + 1, st, offset, all_processed, last_row, commits, fetched => do
    let block := currency_query items stashes start 1000 offset
    let (count, last₂, st₂) ← block_fold cfg st block 0 last_row
    -- `todo = count == block_size; offset += count; commit; all += count`
    if count = 1000 then
      pass_loop cfg items stashes start fuel st₂ (offset + count)
        (all_processed + count) last₂ (commits + 1) (fetched ++ block)
    else
      .ok ⟨all_processed + count, last₂, commits + 1, fetched ++ block, st₂⟩

/-- `CurrencyPostprocessor._currency_processor_single_pass` (currency.py
lines 528-565), with fuel one more than the number of joined rows — enough
because every continued iteration consumes 1000 rows of the stream. -/
def currency_processor_single_pass (cfg : Config) (start : Option Int)
    (st : PState) : Except PyErr PassResult :=
  pass_loop cfg cfg.items cfg.stashes start
    ((currency_join_sorted cfg.items cfg.stashes start).length + 1)
    st 0 0 none 0 []

/-
  Concrete fixtures used by the witnesses and counterexamples below.
-/

/-- A currency-summary row fixture in league `L`. -/
def sRow (fc tc : String) (mean weight : Rat) : CurrencySummaryRow :=
  { from_currency := fc.data, to_currency := tc.data, league := ("L").data,
    count := 1, mean := mean, variance := 0, weight := weight,
    created_at := 0, updated_at := 0 }

/-- The single item backing the outlier-rejection scenario's sales. -/
def c5item : ItemRow :=
  { id := 1, api_id := ("a").data, stash_id := 1, league := ("L").data,
    name := [], typeLine := ("Chaos Orb").data, note := none,
    category := [("currency").data], created_at := 0, updated_at := 1000 }

/-- Sale fixture number `k` of the outlier-rejection scenario: twenty
sales at 0.01 and one at 100, all inside the relevance window. -/
def c5sale (k : Nat) : SaleRow :=
  { id := k + 1, item_id := 1, item_api_id := ("a").data,
    name := ("Chaos Orb").data, is_currency := true,
    sale_currency := ("Exalted Orb").data,
    sale_amount := if k < 20 then 1/100 else 100,
    sale_amount_chaos := none, item_updated_at := 1000,
    created_at := 0, updated_at := 0 }

/-- The twenty-one sales of the outlier-rejection scenario. -/
def c5sales : List SaleRow := (List.range 21).map c5sale

/-- A configuration with the modelled static tables, no dynamic aliases,
caching off and empty item/stash tables. -/
def cfg0 : Config :=
  { off := OFFICIAL_CURRENCIES, unoff := UNOFFICIAL_CURRENCIES, actual := [],
    recent := none, items := [], stashes := [], now := 5000 }

/-- A non-currency item priced at 2 chaos through its note. -/
def itemA : ItemRow :=
  { id := 1, api_id := ("a").data, stash_id := 1, league := ("L").data,
    name := ("A").data, typeLine := ("B").data,
    note := some (("~price 2 chaos").data), category := [],
    created_at := 0, updated_at := 1000 }

/-- A pre-existing sale row for `itemA`'s item id, recorded under the name
`Old`. -/
def oldSale : SaleRow :=
  { id := 7, item_id := 1, item_api_id := ("a").data, name := ("Old").data,
    is_currency := true, sale_currency := ("x").data, sale_amount := 9,
    sale_amount_chaos := none, item_updated_at := 1, created_at := 2,
    updated_at := 3 }

/-- What `oldSale` becomes after `_process_sale` re-records `itemA`:
price fields and timestamps updated, `name` and `is_currency` untouched,
and the chaos value (2, since the sale currency is the chaos orb itself)
written back. -/
def updSale : SaleRow :=
  { oldSale with sale_currency := ("Chaos Orb").data, sale_amount := 2,
                 sale_amount_chaos := some 2, item_updated_at := 1000,
                 updated_at := 5000 }

/-- Item fixture `k` of the pagination scenario: item `k+1`, updated at
time `k`; item number 0 has neither a note nor (via `c1stash`) a stash
name and is therefore skipped by the driver's row filter, while every
other item carries a non-price note. -/
def c1item (k : Nat) : ItemRow :=
  { id := k + 1, api_id := [], stash_id := 1, league := ("L").data,
    name := ("A").data, typeLine := ("B").data,
    note := if k = 0 then none else some (("x").data), category := [],
    created_at := 0, updated_at := (k : Int) }

/-- The 1001 items of the pagination scenario. -/
def c1items : List ItemRow := (List.range 1001).map c1item

/-- The single public stash of the pagination scenario, with an empty
(falsy) display name. -/
def c1stash : StashRow := { id := 1, stash := some [], public := true }

/-- Configuration for the pagination scenario. -/
def c1cfg : Config :=
  { off := OFFICIAL_CURRENCIES, unoff := UNOFFICIAL_CURRENCIES, actual := [],
    recent := none, items := c1items, stashes := [c1stash], now := 5000 }

/-- Items for the pagination witness: three items, all carrying notes, so
no row is skipped. -/
def c1witnessItems : List ItemRow := (List.range 3).map (fun k =>
  { id := k + 1, api_id := [], stash_id := 1, league := ("L").data,
    name := ("A").data, typeLine := ("B").data,
    note := some (("x").data), category := [],
    created_at := 0, updated_at := (k : Int) })

/-- Configuration for the pagination witness. -/
def c1witnessCfg : Config :=
  { off := OFFICIAL_CURRENCIES, unoff := UNOFFICIAL_CURRENCIES, actual := [],
    recent := none, items := c1witnessItems, stashes := [c1stash], now := 5000 }

/-- The uniqueness contract of `currency_summary` on
`(from_currency, to_currency, league)` (spec section 6.2), as a predicate
on a table: no two rows share the key. -/
def summary_keys_unique (l : List CurrencySummaryRow) : Prop :=
  l.Pairwise (fun a b =>
    ¬(a.from_currency = b.from_currency ∧ a.to_currency = b.to_currency ∧
      a.league = b.league))

/-- Second-hop row fixture of the equal-score scenario: `Z` converts to
chaos with weight 0 and mean 7. -/
def c6zRow : CurrencySummaryRow := sRow "Z" "Chaos Orb" 7 0

/-- Candidate row fixture of the equal-score scenario: `A` converts to `Z`
with weight 0 and mean 3, so the candidate's bottleneck score is
`min 0 0 = 0`, equal to the incumbent's. -/
def c6aRow : CurrencySummaryRow := sRow "A" "Z" 3 0

/-- The dynamically-discovered names of the alias-collision scenario: the
dashed lowercase form of `A B` coincides with the lowercase (and dashed)
form of `A-B`. -/
def c8names : List Str := [("A B").data, ("A-B").data]

attribute [local semireducible] Rat.add Rat.mul Rat.sub Rat.inv

/-
  Theorems.  Shared helper lemmas come first; each claim then gets its
  theorem(s), marked with the claim id in the doc comment.
-/

/-- Bind on `Except` consumes an `ok`. -/
theorem except_bind_ok (a : α) (f : α → Except ε β) :
    (Except.ok a >>= f) = f a := rfl

/-- Bind on `Except` propagates an `error`. -/
theorem except_bind_error (e : ε) (f : α → Except ε β) :
    ((Except.error e : Except ε α) >>= f) = Except.error e := rfl

/-- Pure on `Except` is `ok`. -/
theorem except_pure (a : α) : (pure a : Except ε α) = Except.ok a := rfl

/-- Inverting a successful `Except` bind: the first computation succeeded
and its continuation produced the final value. -/
theorem except_bind_ok_inv {ε α β : Type} {m : Except ε α}
    {f : α → Except ε β} {b : β} (h : (m >>= f) = .ok b) :
    ∃ a, m = .ok a ∧ f a = .ok b := by
  cases m with
  | error e =>
    rw [except_bind_error] at h
    exact absurd h (by simp)
  | ok a =>
    rw [except_bind_ok] at h
    exact ⟨a, rfl, h⟩

/-- Unfolding lemma: `convertAmount` raises `ZeroDivisionError` exactly on
a slashed amount whose two parts parse and whose denominator is zero. -/
theorem convertAmount_zero_den (amt num den : Str) (a : Rat)
    (hmem : '/' ∈ amt) (hsplit : splitFirstSlash amt = (num, den))
    (hnum : parseFloat num = some a) (hden : parseFloat den = some 0) :
    convertAmount amt = .error .zeroDivisionError := by
  unfold convertAmount
  rw [if_pos hmem, hsplit]
  simp [hnum, hden]

/-- The strict-regex pass of `parse_note` propagates an amount-conversion
error (the source's `try` only catches `ValueError`). -/
theorem parse_note_conv_error (off unoff actual : Dict) (s : Str)
    (g1 amtStr cur : Str) (e : PyErr)
    (hsearch : searchPrice .strict s = some (g1, amtStr, cur))
    (hconv : convertAmount amtStr = .error e) :
    parse_note off unoff actual none (some s) = .error e := by
  simp only [parse_note, parse_note_one, hsearch, hconv, except_bind_error,
    except_bind_ok, except_pure]

/-- A caught numeric `ValueError` in the strict pass makes `parse_note`
return `(None, None)` without retrying the space-tolerant regex. -/
theorem parse_note_float_fail (off unoff actual : Dict) (s : Str)
    (g1 amtStr cur : Str)
    (hsearch : searchPrice .strict s = some (g1, amtStr, cur))
    (hconv : convertAmount amtStr = .ok none) :
    parse_note off unoff actual none (some s) = .ok none := by
  simp only [parse_note, parse_note_one, hsearch, hconv, except_bind_error,
    except_bind_ok, except_pure]

/-- C3 (counterexample): on the note `~price 1/0 chaos` — a matched amount
of the fractional form `num/den` whose denominator parses to zero —
`parse_note` does not return `(None, None)`: it raises an uncaught
`ZeroDivisionError`.  This is the claim's own scenario evaluated at a
concrete input. -/
theorem c3_parse_note_errors_counterexample :
    parse_note OFFICIAL_CURRENCIES UNOFFICIAL_CURRENCIES [] none
      (some (("~price 1/0 chaos").data)) = .error .zeroDivisionError := by
  decide

/-- C3 (amended): in `parse_note`, a matched amount `num/den` whose parts
parse and whose denominator is zero raises an uncaught
`ZeroDivisionError` (Python's float division raises it and the `except`
clause only catches `ValueError`); a numeric parse failure — `float()`
raising a `ValueError` — returns `(None, None)`.  Only division by zero
is fatal here, not the numeric parse failures. -/
theorem c3_parse_note_errors_amended :
    (∀ amt num den a, ('/' ∈ amt) → splitFirstSlash amt = (num, den) →
      parseFloat num = some a → parseFloat den = some 0 →
      convertAmount amt = .error .zeroDivisionError) ∧
    (∀ off unoff actual s g1 amtStr cur,
      searchPrice .strict s = some (g1, amtStr, cur) →
      convertAmount amtStr = .error .zeroDivisionError →
      parse_note off unoff actual none (some s) = .error .zeroDivisionError) ∧
    (∀ off unoff actual s g1 amtStr cur,
      searchPrice .strict s = some (g1, amtStr, cur) →
      convertAmount amtStr = .ok none →
      parse_note off unoff actual none (some s) = .ok none) := by
  refine ⟨?_, ?_, ?_⟩
  · intro amt num den a hmem hsplit hnum hden
    exact convertAmount_zero_den amt num den a hmem hsplit hnum hden
  · intro off unoff actual s g1 amtStr cur hsearch hconv
    exact parse_note_conv_error off unoff actual s g1 amtStr cur _ hsearch hconv
  · intro off unoff actual s g1 amtStr cur hsearch hconv
    exact parse_note_float_fail off unoff actual s g1 amtStr cur hsearch hconv

/-- C3 (witness): the amended theorem applied at the concrete notes
`~price 1/0 chaos` (division by zero raises) and `~price 1.2.3 chaos`
(numeric parse failure returns `(None, None)`). -/
theorem c3_parse_note_errors_witness :
    parse_note OFFICIAL_CURRENCIES UNOFFICIAL_CURRENCIES [] none
      (some (("~price 1/0 chaos").data)) = .error .zeroDivisionError ∧
    parse_note OFFICIAL_CURRENCIES UNOFFICIAL_CURRENCIES [] none
      (some (("~price 1.2.3 chaos").data)) = .ok none := by
  constructor
  · exact c3_parse_note_errors_amended.2.1 _ _ _ _ (("price").data)
      (("1/0").data) (("chaos").data) (by decide)
      (c3_parse_note_errors_amended.1 (("1/0").data) (("1").data)
        (("0").data) 1 (by decide) (by decide) (by decide) (by decide))
  · exact c3_parse_note_errors_amended.2.2 _ _ _ _ (("price").data)
      (("1.2.3").data) (("chaos").data) (by decide) (by decide)

/-- A list pairwise under `R` keeps at most one element of any Boolean
filter whose satisfying elements can never be `R`-related. -/
theorem length_filter_le_one_of_pairwise {α : Type} (R : α → α → Prop)
    (p : α → Bool) (h : ∀ a b, p a = true → p b = true → ¬ R a b) :
    ∀ (l : List α), l.Pairwise R → (l.filter p).length ≤ 1 := by
  intro l
  induction l with
  | nil => simp
  | cons a l ih =>
    intro hu
    rw [List.pairwise_cons] at hu
    obtain ⟨ha, hl⟩ := hu
    by_cases hp : p a = true
    · rw [List.filter_cons_of_pos hp]
      have hnil : l.filter p = [] := by
        rw [List.filter_eq_nil_iff]
        intro b hb hpb
        exact h a b hp hpb (ha b hb)
      simp [hnil]
    · rw [List.filter_cons_of_neg (by simpa using hp)]
      exact ih hl

/-- Under the uniqueness contract, any key-filter of the summary table
keeps at most one row. -/
theorem filter_key_len_le_one (l : List CurrencySummaryRow)
    (hu : summary_keys_unique l) (x y z : Str) :
    (l.filter (fun r => decide (r.from_currency = x ∧ r.to_currency = y ∧
      r.league = z))).length ≤ 1 := by
  refine length_filter_le_one_of_pairwise _ _ ?_ l hu
  intro a b hpa hpb
  simp only [decide_eq_true_eq] at hpa hpb
  intro hR
  exact hR ⟨hpa.1.trans hpb.1.symm, hpa.2.1.trans hpb.2.1.symm,
    hpa.2.2.trans hpb.2.2.symm⟩

/-- `oneOrNone` succeeds on any list of at most one element. -/
theorem oneOrNone_of_len_le_one (l : List α) (h : l.length ≤ 1) :
    ∃ v, oneOrNone l = .ok v := by
  match l, h with
  | [], _ => exact ⟨none, rfl⟩
  | [x], _ => exact ⟨some x, rfl⟩

/-- A row produced by `oneOrNone` belongs to the queried list. -/
theorem mem_of_oneOrNone_some (l : List α) (x : α)
    (h : oneOrNone l = .ok (some x)) : x ∈ l := by
  match l with
  | [] => exact absurd h (by simp [oneOrNone])
  | [a] =>
    unfold oneOrNone at h
    injection h with h
    injection h with h
    simp [h]
  | a :: b :: t => simp [oneOrNone] at h

/-- Each step of the `find_value_of` loop succeeds under the uniqueness
contract, and it preserves the invariant that a set `high_score` comes
with a set `conversion`. -/
theorem fv_step_total (summaries : List CurrencySummaryRow) (league : Str)
    (hs conv : Option Rat) (row : CurrencySummaryRow)
    (hu : summary_keys_unique summaries)
    (hinv : optRatTruthy hs → conv.isSome) :
    ∃ nxt, fv_step summaries league hs conv row = .ok nxt ∧
      (match nxt with
       | FvNext.cont hs2 conv2 => optRatTruthy hs2 → conv2.isSome
       | FvNext.brk hs2 conv2 => optRatTruthy hs2 → conv2.isSome) := by
  unfold fv_step
  by_cases hdir : row.to_currency = ("Chaos Orb").data
  · simp only [hdir, if_true]
    rcases hs with _ | s
    · exact ⟨.brk (some row.weight) (some row.mean), rfl, by intro _; rfl⟩
    · by_cases ht : (decide (s = 0) || decide (s ≤ row.weight)) = true
      · refine ⟨.brk (some row.weight) (some row.mean), ?_, by intro _; rfl⟩
        simp only [ge_iff_le, ht, if_true]
        rfl
      · refine ⟨.brk (some s) conv, ?_, hinv⟩
        simp only [ge_iff_le, ht, if_false]
        rfl
  · simp only [hdir, if_false]
    rcases hs with _ | s
    · -- no incumbent: never skipped, a found second hop always installs
      obtain ⟨v, hv⟩ := oneOrNone_of_len_le_one _
        (filter_key_len_le_one summaries hu row.to_currency (("Chaos Orb").data) league)
      match v, hv with
      | none, hv =>
        refine ⟨.cont none conv, ?_, hinv⟩
        simp only [Bool.decide_and] at hv
        simp [hv, except_bind_ok, except_pure]
      | some row2, hv =>
        refine ⟨.cont (some (min row.weight row2.weight))
          (some (row.mean * row2.mean)), ?_, by intro _; rfl⟩
        simp only [Bool.decide_and] at hv
        simp [hv, except_bind_ok, except_pure]
    · by_cases hskip : (decide (s ≠ 0) && decide (row.weight ≤ s)) = true
      · refine ⟨.cont (some s) conv, ?_, hinv⟩
        simp only [ne_eq, hskip, if_true]
        rfl
      · obtain ⟨v, hv⟩ := oneOrNone_of_len_le_one _
          (filter_key_len_le_one summaries hu row.to_currency (("Chaos Orb").data) league)
        match v, hv with
        | none, hv =>
          refine ⟨.cont (some s) conv, ?_, hinv⟩
          simp only [ne_eq, hskip, if_false]
          simp only [Bool.decide_and] at hv
          simp [hv, except_bind_ok, except_pure]
        | some row2, hv =>
          by_cases hb : (decide (s = 0) || decide (min row.weight row2.weight > s)) = true
          · refine ⟨.cont (some (min row.weight row2.weight))
              (some (row.mean * row2.mean)), ?_, by intro _; rfl⟩
            simp only [ne_eq, hskip, if_false]
            simp only [Bool.decide_and] at hv
            simp only [gt_iff_lt] at hb
            simp [hv, hb, except_bind_ok, except_pure]
            intro h1 h2
            have hb2 : s = 0 ∨ s < row.weight ⊓ row2.weight := by simpa using hb
            rcases hb2 with h0 | hlt
            · exact absurd h0 h1
            · rw [lt_min_iff] at hlt
              exact absurd hlt.2 (not_lt.mpr (h2 hlt.1))
          · refine ⟨.cont (some s) conv, ?_, hinv⟩
            simp only [ne_eq, hskip, if_false]
            simp only [Bool.decide_and] at hv
            simp only [gt_iff_lt] at hb
            simp [hv, hb, except_bind_ok, except_pure]
            intro h
            have hb2 : ¬s = 0 ∧ ¬s < row.weight ⊓ row2.weight := by
              simpa [not_or] using hb
            rcases h with h0 | hlt
            · exact absurd h0 hb2.1
            · exact absurd (lt_min_iff.mpr hlt) hb2.2

/-- The `find_value_of` loop succeeds under the uniqueness contract and
maintains the score/conversion invariant. -/
theorem fv_loop_total (summaries : List CurrencySummaryRow) (league : Str)
    (hu : summary_keys_unique summaries) :
    ∀ (rows : List CurrencySummaryRow) (hs conv : Option Rat),
    (optRatTruthy hs → conv.isSome) →
    ∃ hs2 conv2, fv_loop summaries league hs conv rows = .ok (hs2, conv2) ∧
      (optRatTruthy hs2 → conv2.isSome) := by
  intro rows
  induction rows with
  | nil =>
    intro hs conv hinv
    exact ⟨hs, conv, rfl, hinv⟩
  | cons row rows ih =>
    intro hs conv hinv
    obtain ⟨nxt, hstep, hnxt⟩ := fv_step_total summaries league hs conv row hu hinv
    match nxt, hstep, hnxt with
    | .brk hs2 conv2, hstep, hnxt =>
      refine ⟨hs2, conv2, ?_, hnxt⟩
      unfold fv_loop
      simp [hstep, except_bind_ok, except_pure]
    | .cont hs2 conv2, hstep, hnxt =>
      obtain ⟨hs3, conv3, hloop, hinv3⟩ := ih hs2 conv2 hnxt
      refine ⟨hs3, conv3, ?_, hinv3⟩
      unfold fv_loop
      simp [hstep, hloop, except_bind_ok, except_pure]

/-- C9 (counterexample): with the single stored row
`Chaos Orb -> X (league L)` carrying mean `0`, `find_value_of` on `X`
raises `ZeroDivisionError` from `1.0/row.mean` — it does not return a
number or null. -/
theorem c9_find_value_total_counterexample :
    find_value_of [sRow "Chaos Orb" "X" 0 5] (("X").data) (("L").data) 1 =
      .error .zeroDivisionError := by
  decide

/-- C9 (amended): `find_value_of` returns a number or null — raising
nothing — for every summary table that (a) satisfies the uniqueness
contract on `(from_currency, to_currency, league)` and (b) stores no zero
mean on a `Chaos Orb -> name` row of the queried league; with a zero mean
stored there, the division `1.0/row.mean` raises `ZeroDivisionError` (the
counterexample). -/
theorem c9_find_value_total_amended (summaries : List CurrencySummaryRow)
    (name league : Str) (price : Rat)
    (hu : summary_keys_unique summaries)
    (hmean : ∀ r ∈ summaries, r.from_currency = ("Chaos Orb").data →
      r.to_currency = name → r.league = league → r.mean ≠ 0) :
    ∃ v, find_value_of summaries name league price = .ok v := by
  unfold find_value_of
  by_cases hname : name = ("Chaos Orb").data
  · exact ⟨some price, by simp [hname, except_pure]⟩
  · simp only [hname, if_false]
    obtain ⟨hs2, conv2, hloop, hinv⟩ := fv_loop_total summaries league hu
      (List.insertionSort weightDesc (summaries.filter (fun r =>
        decide (r.from_currency = name ∧ r.league = league)))) none none
      (by simp [optRatTruthy])
    by_cases htr : optRatTruthy hs2
    · obtain ⟨c, hc⟩ := Option.isSome_iff_exists.mp (hinv htr)
      refine ⟨some (c * price), ?_⟩
      simp only [Bool.decide_and] at hloop
      simp [hloop, except_bind_ok, htr, hc, except_pure]
    · obtain ⟨v, hv⟩ := oneOrNone_of_len_le_one _
        (filter_key_len_le_one summaries hu (("Chaos Orb").data) name league)
      match v, hv with
      | none, hv =>
        refine ⟨none, ?_⟩
        simp only [Bool.decide_and] at hloop hv
        simp [hloop, except_bind_ok, htr, hv, except_pure]
      | some row, hv =>
        have hrmem : row ∈ summaries.filter (fun r =>
            decide (r.from_currency = ("Chaos Orb").data ∧ r.to_currency = name ∧
              r.league = league)) := mem_of_oneOrNone_some _ _ hv
        have hprops := List.of_mem_filter hrmem
        simp only [decide_eq_true_eq] at hprops
        have hnz : row.mean ≠ 0 :=
          hmean row (List.mem_of_mem_filter hrmem) hprops.1 hprops.2.1 hprops.2.2
        refine ⟨some ((1 / row.mean) * price), ?_⟩
        simp only [Bool.decide_and] at hloop hv
        simp [hloop, except_bind_ok, htr, hv, hnz, except_pure]

/-- C9 (witness): the amended theorem applied to the concrete one-row
table `Chaos Orb -> X` with the nonzero mean one half. -/
theorem c9_find_value_total_witness :
    ∃ v, find_value_of [sRow "Chaos Orb" "X" (1/2) 5]
      (("X").data) (("L").data) 1 = .ok v := by
  refine c9_find_value_total_amended _ _ _ _ ?_ ?_
  · unfold summary_keys_unique
    simp
  · intro r hr h1 h2 h3
    simp only [List.mem_singleton] at hr
    subst hr
    decide

/-- When the queried name has no direct chaos edge and no two-hop path to
chaos, the `find_value_of` loop ends with both `high_score` and
`conversion` unset. -/
theorem fv_loop_untouched (summaries : List CurrencySummaryRow)
    (name league : Str)
    (hdir : ∀ r ∈ summaries, r.from_currency = name → r.league = league →
      r.to_currency ≠ ("Chaos Orb").data)
    (hhop : ∀ r ∈ summaries, r.from_currency = name → r.league = league →
      ∀ r2 ∈ summaries, ¬(r2.from_currency = r.to_currency ∧
        r2.to_currency = ("Chaos Orb").data ∧ r2.league = league)) :
    ∀ (rows : List CurrencySummaryRow),
    (∀ r ∈ rows, r ∈ summaries ∧ r.from_currency = name ∧ r.league = league) →
    fv_loop summaries league none none rows = .ok (none, none) := by
  intro rows
  induction rows with
  | nil => intro _; rfl
  | cons row rows ih =>
    intro hmem
    obtain ⟨hrow, hfrom, hleague⟩ := hmem row (List.mem_cons_self row rows)
    have hto : row.to_currency ≠ ("Chaos Orb").data := hdir row hrow hfrom hleague
    have hfilter : summaries.filter (fun r =>
        decide (r.from_currency = row.to_currency ∧
          r.to_currency = ("Chaos Orb").data ∧ r.league = league)) = [] := by
      rw [List.filter_eq_nil_iff]
      intro r2 hr2
      simp only [decide_eq_true_eq]
      exact hhop row hrow hfrom hleague r2 hr2
    have hstep : fv_step summaries league none none row =
        .ok (.cont none none) := by
      unfold fv_step
      simp only [hto, if_false]
      simp only [Bool.decide_and] at hfilter
      simp [hfilter, oneOrNone, except_bind_ok, except_pure]
    unfold fv_loop
    rw [hstep, except_bind_ok]
    exact ih (fun r hr => hmem r (List.mem_cons_of_mem row hr))

/-- C7: when a name other than `Chaos Orb` has no direct edge and no
two-hop path to chaos, but a summary row `Chaos Orb -> name` in the given
league exists (uniquely, per the table's uniqueness contract) with a
nonzero mean, `find_value_of` returns `(1 / that row's mean) * price` via
the inverse fallback. -/
theorem c7_inverse_fallback (summaries : List CurrencySummaryRow)
    (name league : Str) (price : Rat) (invRow : CurrencySummaryRow)
    (hname : name ≠ ("Chaos Orb").data)
    (hdir : ∀ r ∈ summaries, r.from_currency = name → r.league = league →
      r.to_currency ≠ ("Chaos Orb").data)
    (hhop : ∀ r ∈ summaries, r.from_currency = name → r.league = league →
      ∀ r2 ∈ summaries, ¬(r2.from_currency = r.to_currency ∧
        r2.to_currency = ("Chaos Orb").data ∧ r2.league = league))
    (hinv : summaries.filter (fun r =>
      decide (r.from_currency = ("Chaos Orb").data ∧ r.to_currency = name ∧
        r.league = league)) = [invRow])
    (hmean : invRow.mean ≠ 0) :
    find_value_of summaries name league price =
      .ok (some ((1 / invRow.mean) * price)) := by
  have hrows : ∀ r ∈ List.insertionSort weightDesc (summaries.filter (fun r =>
      decide (r.from_currency = name ∧ r.league = league))),
      r ∈ summaries ∧ r.from_currency = name ∧ r.league = league := by
    intro r hr
    have hr2 : r ∈ summaries.filter (fun r =>
        decide (r.from_currency = name ∧ r.league = league)) :=
      (List.perm_insertionSort weightDesc _).subset hr
    have hp := List.of_mem_filter hr2
    simp only [decide_eq_true_eq] at hp
    exact ⟨List.mem_of_mem_filter hr2, hp⟩
  have hloop := fv_loop_untouched summaries name league hdir hhop _ hrows
  unfold find_value_of
  simp only [hname, if_false]
  simp only [Bool.decide_and] at hloop hinv
  simp [hloop, except_bind_ok, optRatTruthy, hinv, oneOrNone, hmean, except_pure]

/-- C7 (witness): with the single summary row `Chaos Orb -> X` at mean one
half in league `L`, `find_value_of ("X", "L", 1)` returns 2, exactly the
spec's inverse-fallback acceptance test. -/
theorem c7_inverse_fallback_witness :
    find_value_of [sRow "Chaos Orb" "X" (1/2) 5] (("X").data) (("L").data) 1 =
      .ok (some 2) := by
  have h := c7_inverse_fallback [sRow "Chaos Orb" "X" (1/2) 5]
    (("X").data) (("L").data) 1 (sRow "Chaos Orb" "X" (1/2) 5)
    (by decide)
    (by intro r hr; simp only [List.mem_singleton] at hr; subst hr; decide)
    (by intro r hr; simp only [List.mem_singleton] at hr; subst hr; decide)
    (by decide) (by decide)
  rw [h]
  norm_num [sRow]

/-- C5: whenever the bucket's count exceeds 3 and the weighted standard
deviation exceeds half the weighted mean, `_get_mean_and_std` performs
exactly one outlier-rejection pass — dropping the samples with
`|p - mean| > 2 stddev` and recomputing mean, variance, weight and count
once, with no further iteration even if the recomputed statistics would
trigger the condition again (first conjunct, which pins the result to the
once-filtered statistics for every input).  In particular (remaining
conjuncts), for twenty in-window sales at amount 0.01 and one at 100 the
pre-rejection count is 21, the trigger condition holds, and the resulting
summary has count 20, mean exactly 0.01, and a non-null (zero) standard
deviation. -/
theorem c5_outlier_rejection :
    (∀ (sales : List SaleRow) (items : List ItemRow)
       (name currency league : Str) (sale_time now : Int),
      let values := gmas_values sales items name currency league sale_time now
      let mv := calc_mean_var values
      values.length > 3 → stddev_gt_half_mean mv.2 mv.1 = true →
      get_mean_and_std sales items name currency league sale_time now =
        some (let kept := values.filter (fun pw => within_two_stddev mv.2 mv.1 pw.1)
              let mv2 := calc_mean_var kept
              (mv2.1, mv2.2, (kept.map (fun pw => pw.2)).sum, kept.length))) ∧
    (gmas_values c5sales [c5item] (("Chaos Orb").data) (("Exalted Orb").data)
      (("L").data) 1000 1000).length = 21 ∧
    (let values := gmas_values c5sales [c5item] (("Chaos Orb").data)
       (("Exalted Orb").data) (("L").data) 1000 1000
     let mv := calc_mean_var values
     stddev_gt_half_mean mv.2 mv.1 = true) ∧
    get_mean_and_std c5sales [c5item] (("Chaos Orb").data)
      (("Exalted Orb").data) (("L").data) 1000 1000 =
      some (1/100, 0, 864000, 20) := by
  refine ⟨?_, by decide, by decide, by decide⟩
  intro sales items name currency league sale_time now values mv hcount hcond
  unfold get_mean_and_std
  have hne : ¬(values.length = 0) := by omega
  simp only [hne, if_false]
  have hboth : values.length > 3 ∧ stddev_gt_half_mean mv.2 mv.1 = true :=
    ⟨hcount, hcond⟩
  simp only [values, mv] at hboth ⊢
  simp [hboth]

/-- C5 (witness): the general conjunct applied at the concrete
outlier-rejection scenario, with its two trigger hypotheses discharged by
evaluation. -/
theorem c5_outlier_rejection_witness :
    get_mean_and_std c5sales [c5item] (("Chaos Orb").data)
      (("Exalted Orb").data) (("L").data) 1000 1000 =
      some (let values := gmas_values c5sales [c5item] (("Chaos Orb").data)
              (("Exalted Orb").data) (("L").data) 1000 1000
            let mv := calc_mean_var values
            let kept := values.filter (fun pw => within_two_stddev mv.2 mv.1 pw.1)
            let mv2 := calc_mean_var kept
            (mv2.1, mv2.2, (kept.map (fun pw => pw.2)).sum, kept.length)) :=
  c5_outlier_rejection.1 c5sales [c5item] (("Chaos Orb").data)
    (("Exalted Orb").data) (("L").data) 1000 1000 (by decide) (by decide)

/-- C4: every sale `_process_sale` records carries
`item_updated_at = item.updated_at`, on the insert path and the update
path alike (first two conjuncts) — but while `_process_sale` passes
`item_updated_at` among the constructor fields of a new `Sale`, the `Sale`
model declared in src db.py has no such column (last two conjuncts), so
running the recording code against that schema raises: the claim (and the
spec's schema, and currency.py's own reads of the column) is right and the
db.py in the tree is missing the column. -/
theorem c4_item_updated_at_mirror_and_missing_column :
    (∀ (item : ItemRow) (name : Str) (isc : Bool) (price : Rat)
       (currency : Str) (now : Int) (nid : Nat),
      (upsert_sale none item name isc price currency now nid).item_updated_at =
        item.updated_at) ∧
    (∀ (e : SaleRow) (item : ItemRow) (name : Str) (isc : Bool) (price : Rat)
       (currency : Str) (now : Int) (nid : Nat),
      (upsert_sale (some e) item name isc price currency now nid).item_updated_at =
        item.updated_at) ∧
    "item_updated_at" ∈ sale_insert_fields ∧
    "item_updated_at" ∉ db_sale_columns := by
  refine ⟨fun _ _ _ _ _ _ _ => rfl, fun _ _ _ _ _ _ _ _ => rfl, ?_, ?_⟩
  · decide
  · decide

/-- C10 (counterexample): a joined row whose stash display name is null
and whose item note is the nonempty non-tilde string `price 5 chaos` makes
`_process_sale` raise `AttributeError` (`None.startswith`) instead of
returning null. -/
theorem c10_null_stash_counterexample :
    process_sale cfg0 ⟨[], [], 1⟩
      ⟨{ itemA with note := some (("price 5 chaos").data) }, none, true⟩ =
      .error .attributeError := by
  decide

/-- C10 (amended): the driver's per-row filter indeed only skips rows
whose note and stash name are both falsy, so a row with a null stash name
and a nonempty note does reach `_process_sale` — but when that note does
not begin with a tilde, `_process_sale` raises `AttributeError` from
`row.stash.startswith` on the null stash name rather than returning null
(first conjunct: the function itself; second conjunct: the driver's row
loop propagates the raise, showing the row was not skipped). -/
theorem c10_null_stash_amended :
    (∀ (cfg : Config) (st : PState) (row : CurrencyQueryRow) (n : Str),
      row.stash = none → row.Item.note = some n → n ≠ [] →
      pyStartsWith n [('~')] = false →
      process_sale cfg st row = .error .attributeError) ∧
    (∀ (cfg : Config) (st : PState) (row : CurrencyQueryRow) (n : Str)
       (rows : List CurrencyQueryRow) (count : Nat) (last : Option Nat),
      row.stash = none → row.Item.note = some n → n ≠ [] →
      pyStartsWith n [('~')] = false →
      block_fold cfg st (row :: rows) count last = .error .attributeError) := by
  have hmain : ∀ (cfg : Config) (st : PState) (row : CurrencyQueryRow) (n : Str),
      row.stash = none → row.Item.note = some n → n ≠ [] →
      pyStartsWith n [('~')] = false →
      process_sale cfg st row = .error .attributeError := by
    intro cfg st row n hstash hnote hne hpre
    have helig : sale_eligibility row = .error .attributeError := by
      unfold sale_eligibility
      simp [hnote, hstash, hpre]
      rfl
    unfold process_sale
    rw [helig, except_bind_error]
  refine ⟨hmain, ?_⟩
  intro cfg st row n rows count last hstash hnote hne hpre
  unfold block_fold
  have htruth : (optStrTruthy row.Item.note || optStrTruthy row.stash) = true := by
    simp [hnote, optStrTruthy, hne]
  rw [htruth]
  simp only [Bool.not_true, Bool.false_eq_true, if_false]
  rw [hmain cfg st row n hstash hnote hne hpre]
  rfl

/-- C10 (witness): the amended theorem applied at the concrete row with a
null stash name and the note `price 5 chaos`, both for `_process_sale`
itself and for the driver's row loop. -/
theorem c10_null_stash_witness :
    process_sale cfg0 ⟨[], [], 2⟩
      ⟨{ itemA with note := some (("price 5 chaos").data) }, none, true⟩ =
        .error .attributeError ∧
    block_fold cfg0 ⟨[], [], 2⟩
      [⟨{ itemA with note := some (("price 5 chaos").data) }, none, true⟩] 0 none =
        .error .attributeError := by
  constructor
  · exact c10_null_stash_amended.1 cfg0 ⟨[], [], 2⟩ _ (("price 5 chaos").data)
      rfl rfl (by decide) (by decide)
  · exact c10_null_stash_amended.2 cfg0 ⟨[], [], 2⟩ _ (("price 5 chaos").data)
      [] 0 none rfl rfl (by decide) (by decide)

/-- C6 (counterexample): with a zero incumbent score — Python treats the
float `0.0` as falsy — a two-hop candidate whose bottleneck score equals
the incumbent's score does replace the incumbent: processing the row
`A -> Z` (weight 0, mean 3) against the table holding `Z -> Chaos Orb`
(weight 0, mean 7) from the state `(high_score = 0, conversion = 5)`
overwrites the conversion with `3 * 7 = 21`.  The claim's `equals never
replace` is therefore false for zero scores. -/
theorem c6_tie_breaks_counterexample :
    fv_step [c6zRow] (("L").data) (some 0) (some 5) c6aRow =
      .ok (.cont (some 0) (some 21)) ∧
    min c6aRow.weight c6zRow.weight = 0 ∧ (some (21 : Rat)) ≠ (some (5 : Rat)) := by
  refine ⟨by decide, by decide, by decide⟩

/-- C6 (amended): in `find_value_of`'s loop, (first conjunct) a direct
edge to `Chaos Orb` whose weight equals the incumbent score always
replaces the incumbent and breaks — the direct edge wins ties — and
(second conjunct) a two-hop candidate whose bottleneck score equals the
incumbent's score never replaces the incumbent, provided the incumbent
score is nonzero; an incumbent score of `0.0` is falsy in Python and is
treated as no incumbent at all, in which case an equal (zero-score)
candidate does replace it (the counterexample). -/
theorem c6_tie_breaks_amended :
    (∀ (summaries : List CurrencySummaryRow) (league : Str)
       (conv : Option Rat) (row : CurrencySummaryRow) (s : Rat),
      row.to_currency = ("Chaos Orb").data → row.weight = s →
      fv_step summaries league (some s) conv row =
        .ok (.brk (some row.weight) (some row.mean))) ∧
    (∀ (summaries : List CurrencySummaryRow) (league : Str)
       (conv : Option Rat) (row row2 : CurrencySummaryRow) (s : Rat),
      s ≠ 0 → row.to_currency ≠ ("Chaos Orb").data →
      summaries.filter (fun r =>
        decide (r.from_currency = row.to_currency ∧
          r.to_currency = ("Chaos Orb").data ∧ r.league = league)) = [row2] →
      min row.weight row2.weight = s →
      fv_step summaries league (some s) conv row = .ok (.cont (some s) conv)) := by
  constructor
  · intro summaries league conv row s hto hw
    unfold fv_step
    simp only [hto, if_true]
    have hcond : (decide (s = 0) || decide (s ≤ row.weight)) = true := by
      simp [hw]
    simp only [ge_iff_le, hcond, if_true]
    rfl
  · intro summaries league conv row row2 s hs hto hfilter hmin
    unfold fv_step
    simp only [hto, if_false]
    by_cases hskip : (decide (s ≠ 0) && decide (row.weight ≤ s)) = true
    · simp only [ne_eq, hskip, if_true]
      rfl
    · simp only [ne_eq, hskip, if_false]
      simp only [Bool.decide_and] at hfilter
      have hballot : (decide (s = 0) || decide (min row.weight row2.weight > s)) = false := by
        simp [hs, hmin]
      simp [hfilter, oneOrNone, except_bind_ok, hballot, except_pure]
      intro h
      rcases h with h0 | hlt
      · exact absurd h0 hs
      · have hcontra : s < row.weight ⊓ row2.weight := lt_min_iff.mpr hlt
        rw [hmin] at hcontra
        exact absurd hcontra (lt_irrefl s)

/-- C6 (witness): the amended theorem applied at concrete rows: a direct
chaos edge of weight 5 replaces an incumbent of score 5, and a two-hop
candidate of bottleneck score 5 leaves a nonzero incumbent of score 5 in
place. -/
theorem c6_tie_breaks_witness :
    fv_step [] (("L").data) (some 5) (some 9) (sRow "E" "Chaos Orb" 4 5) =
      .ok (.brk (some 5) (some 4)) ∧
    fv_step [sRow "Z" "Chaos Orb" 7 5] (("L").data) (some 5) (some 9)
      (sRow "A" "Z" 3 6) = .ok (.cont (some 5) (some 9)) := by
  constructor
  · exact c6_tie_breaks_amended.1 [] (("L").data) (some 9)
      (sRow "E" "Chaos Orb" 4 5) 5 (by decide) (by decide)
  · exact c6_tie_breaks_amended.2 [sRow "Z" "Chaos Orb" 7 5] (("L").data)
      (some 9) (sRow "A" "Z" 3 6) (sRow "Z" "Chaos Orb" 7 5) 5
      (by norm_num) (by decide) (by decide) (by decide)

/-- C2 (counterexample): re-recording item 1 (a non-currency item named
`A B`, priced `~price 2 chaos`) over the existing sale row named `Old`
leaves the stored name `Old` and the stored `is_currency` flag unchanged
— the update path does not set `name` or `is_currency`, contradicting the
claim that all of the listed fields are set on both paths. -/
theorem c2_upsert_fields_counterexample :
    process_sale cfg0 ⟨[oldSale], [], 8⟩ ⟨itemA, some (("s").data), true⟩ =
      .ok (some 7, ⟨[updSale], [], 8⟩) ∧
    updSale.name = ("Old").data ∧ updSale.is_currency = true ∧
    pyStrip (itemA.name ++ [(' ')] ++ itemA.typeLine) = ("A B").data ∧
    itemA.category.contains (("currency").data) = false ∧
    ("Old").data ≠ ("A B").data := by
  refine ⟨by decide, by decide, by decide, by decide, by decide, by decide⟩

/-- C2 (amended): the sale upsert is keyed by `item_id`; on the insert
path every column is set as the claim lists (plus `item_api_id`), with
`created_at = now` and `sale_amount_chaos = null` (first conjunct); on
the update path only `sale_currency`, `sale_amount`,
`sale_amount_chaos` (cleared to null), `item_updated_at` and
`updated_at = now` are assigned, while `name`, `is_currency`,
`item_api_id` and `created_at` keep the stored values (second conjunct);
and through the whole of `_process_sale`, whenever a sale is recorded over
an existing row, the recorded row still carries the existing `name`,
`is_currency` and `created_at` (third conjunct). -/
theorem c2_upsert_fields_amended :
    (∀ (item : ItemRow) (name : Str) (isc : Bool) (price : Rat)
       (currency : Str) (now : Int) (nid : Nat),
      upsert_sale none item name isc price currency now nid =
        { id := nid, item_id := item.id, item_api_id := item.api_id,
          name := name, is_currency := isc, sale_currency := currency,
          sale_amount := price, sale_amount_chaos := none,
          created_at := now, item_updated_at := item.updated_at,
          updated_at := now }) ∧
    (∀ (e : SaleRow) (item : ItemRow) (name : Str) (isc : Bool) (price : Rat)
       (currency : Str) (now : Int) (nid : Nat),
      upsert_sale (some e) item name isc price currency now nid =
        { e with sale_currency := currency, sale_amount := price,
                 sale_amount_chaos := none,
                 item_updated_at := item.updated_at, updated_at := now }) ∧
    (∀ (cfg : Config) (st : PState) (row : CurrencyQueryRow) (e : SaleRow)
       (rid : Nat) (st2 : PState),
      st.sales.filter (fun s => decide (s.item_id = row.Item.id)) = [e] →
      process_sale cfg st row = .ok (some rid, st2) →
      ∀ s2 ∈ st2.sales, s2.item_id = row.Item.id →
        s2.name = e.name ∧ s2.is_currency = e.is_currency ∧
        s2.created_at = e.created_at ∧ s2.updated_at = cfg.now ∧
        s2.item_updated_at = row.Item.updated_at) := by
  refine ⟨fun _ _ _ _ _ _ _ => rfl, fun _ _ _ _ _ _ _ _ => rfl, ?_⟩
  intro cfg st row e rid st2 hfilter hproc s2 hs2 hid
  have he : e.item_id = row.Item.id := by
    have hmem : e ∈ st.sales.filter (fun s => decide (s.item_id = row.Item.id)) := by
      rw [hfilter]
      exact List.mem_singleton_self e
    have := List.of_mem_filter hmem
    simpa using this
  unfold process_sale at hproc
  obtain ⟨elig, hel, hproc⟩ := except_bind_ok_inv hproc
  cases elig with
  | false => simp [except_pure] at hproc
  | true =>
    simp only [Bool.not_true, Bool.false_eq_true, if_false] at hproc
    obtain ⟨vsp, hsp, hproc⟩ := except_bind_ok_inv hproc
    obtain ⟨vip, hip, hproc⟩ := except_bind_ok_inv hproc
    dsimp only at hproc
    rcases hpc : price_with_fallback vip vsp with _ | ⟨price, currency⟩
    all_goals rw [hpc] at hproc
    all_goals dsimp only at hproc
    · simp [except_pure] at hproc
    by_cases hz : price = 0
    · rw [if_pos hz] at hproc
      simp [except_pure] at hproc
    rw [if_neg hz] at hproc
    obtain ⟨existing, hex, hproc⟩ := except_bind_ok_inv hproc
    rw [hfilter] at hex
    have hexe : existing = some e := by
      simp only [oneOrNone] at hex
      injection hex with hex
      exact hex.symm
    subst hexe
    dsimp only at hproc
    obtain ⟨vup, hup, hproc⟩ := except_bind_ok_inv hproc
    rcases vup with ⟨amount_chaos, summaries₁⟩
    dsimp only at hproc
    rcases amount_chaos with _ | ac
    all_goals rw [except_pure] at hproc
    all_goals injection hproc with hpair
    all_goals injection hpair with _ hst
    · rw [← hst] at hs2
      dsimp only at hs2
      obtain ⟨s0, hs0, hmap⟩ := List.mem_map.mp hs2
      by_cases h0 : s0.item_id = row.Item.id
      · rw [if_pos h0] at hmap
        subst hmap
        exact ⟨rfl, rfl, rfl, rfl, rfl⟩
      · rw [if_neg h0] at hmap
        subst hmap
        exact absurd hid h0
    · rw [← hst] at hs2
      dsimp only at hs2
      obtain ⟨s1, hs1, hmap1⟩ := List.mem_map.mp hs2
      obtain ⟨s0, hs0, hmap0⟩ := List.mem_map.mp hs1
      by_cases h0 : s0.item_id = row.Item.id
      · rw [if_pos h0] at hmap0
        subst hmap0
        dsimp only [upsert_sale] at hmap1
        rw [if_pos he] at hmap1
        subst hmap1
        exact ⟨rfl, rfl, rfl, rfl, rfl⟩
      · rw [if_neg h0] at hmap0
        subst hmap0
        rw [if_neg h0] at hmap1
        subst hmap1
        exact absurd hid h0

/-- C2 (witness): the amended theorem's update-path conjunct applied at
the concrete re-recording of item 1 over the sale named `Old`: the
recorded row keeps the stored name, currency flag and creation time, and
carries the fresh timestamps. -/
theorem c2_upsert_fields_witness :
    updSale.name = oldSale.name ∧ updSale.is_currency = oldSale.is_currency ∧
    updSale.created_at = oldSale.created_at ∧ updSale.updated_at = cfg0.now ∧
    updSale.item_updated_at =
      (⟨itemA, some (("s").data), true⟩ : CurrencyQueryRow).Item.updated_at :=
  c2_upsert_fields_amended.2.2 cfg0 ⟨[oldSale], [], 8⟩
    ⟨itemA, some (("s").data), true⟩ oldSale 7 ⟨[updSale], [], 8⟩
    (by decide) (by decide) updSale (List.mem_singleton_self updSale)
    (by decide)

/-- A Boolean `takeWhile` that accepts every element returns the whole
list. -/
theorem pyTakeWhile_all {p : Char → Bool} :
    ∀ (l : Str), (∀ c ∈ l, p c = true) → l.takeWhile p = l := by
  intro l
  induction l with
  | nil => intro _; rfl
  | cons c k ih =>
    intro h
    rw [List.takeWhile_cons, h c (List.mem_cons_self c k)]
    rw [ih (fun x hx => h x (List.mem_cons_of_mem c hx))]
    rfl

/-- No character of a dashed string is a space. -/
theorem dashed_no_space (s : Str) : ∀ c ∈ dashed s, isPySpace c = false := by
  intro c hc
  obtain ⟨c0, _, rfl⟩ := List.mem_map.mp hc
  unfold dashedChar
  by_cases h0 : c0 = ' '
  · rw [if_pos h0]
    rfl
  · rw [if_neg h0]
    simp [isPySpace, h0]

/-- Lowercasing is idempotent character by character. -/
theorem pyLowerChar_fix (c : Char) : pyLowerChar (pyLowerChar c) = pyLowerChar c := by
  unfold pyLowerChar
  by_cases h : 65 ≤ c.toNat ∧ c.toNat ≤ 90
  · rw [dif_pos h]
    have ht : (Char.ofNatAux (c.toNat + 32) (Or.inl (by omega))).toNat = c.toNat + 32 := rfl
    rw [dif_neg (by omega)]
  · rw [dif_neg h, dif_neg h]

/-- The dashed lowercase form of a name is a fixed point of lowercasing:
this is the form `parse_note` sees after it lowercases the token. -/
theorem pyLower_dashed_fix (s : Str) :
    pyLower (dashed (pyLower s)) = dashed (pyLower s) := by
  unfold pyLower dashed
  simp only [List.map_map]
  apply List.map_congr_left
  intro c _
  show pyLowerChar (dashedChar (pyLowerChar c)) = dashedChar (pyLowerChar c)
  by_cases hd : pyLowerChar c = ' '
  · unfold dashedChar
    rw [if_pos hd]
    decide
  · unfold dashedChar
    rw [if_neg hd]
    exact pyLowerChar_fix c

/-- Lookup after a dict assignment: the assigned key reads back the new
value, every other key is unchanged. -/
theorem dictFind?_dictInsert (m : Dict) (k v k' : Str) :
    dictFind? (dictInsert m k v) k' =
      if k' = k then some v else dictFind? m k' := by
  induction m with
  | nil =>
    by_cases h : k' = k
    · simp [dictInsert, dictFind?, List.find?, h]
    · have hne : (decide (k = k')) = false :=
        decide_eq_false (fun hh => h hh.symm)
      simp [dictInsert, dictFind?, List.find?, hne, h]
  | cons kv m ih =>
    rcases kv with ⟨k0, v0⟩
    unfold dictInsert
    by_cases h0 : k0 = k
    · rw [if_pos h0]
      by_cases h' : k' = k
      · subst h0
        simp [dictFind?, List.find?, h']
      · subst h0
        have hne : ¬(k0 = k') := fun hh => h' (hh.symm)
        simp [dictFind?, List.find?, hne, h']
    · rw [if_neg h0]
      by_cases hk0 : k0 = k'
      · have hne : ¬ k' = k := fun hh => h0 (hk0.trans hh)
        simp [dictFind?, List.find?, hk0, hne]
      · have h1 : dictFind? ((k0, v0) :: m) k' = dictFind? m k' := by
          simp [dictFind?, List.find?, hk0]
        have h2 : dictFind? ((k0, v0) :: dictInsert m k v) k' =
            dictFind? (dictInsert m k v) k' := by
          simp [dictFind?, List.find?, hk0]
        rw [h2, ih, h1]

/-- A dict update whose pairs never carry the key leaves that key's
binding unchanged. -/
theorem dictFind?_dictUpdate_of_no_write (ps : List (Str × Str)) (k : Str)
    (hk : ∀ kv ∈ ps, kv.1 ≠ k) :
    ∀ (m : Dict), dictFind? (dictUpdate m ps) k = dictFind? m k := by
  induction ps with
  | nil => intro m; rfl
  | cons kv ps ih =>
    intro m
    have hstep : dictUpdate m (kv :: ps) = dictUpdate (dictInsert m kv.1 kv.2) ps := rfl
    rw [hstep, ih (fun x hx => hk x (List.mem_cons_of_mem kv hx))]
    rw [dictFind?_dictInsert]
    rw [if_neg (fun hh => hk kv (List.mem_cons_self kv ps) hh.symm)]

/-- A dict update that writes the key at least once, always with the same
value, makes the key read back that value. -/
theorem dictFind?_dictUpdate_of_write (ps : List (Str × Str)) (k v : Str)
    (hall : ∀ kv ∈ ps, kv.1 = k → kv.2 = v)
    (hex : ∃ kv ∈ ps, kv.1 = k) :
    ∀ (m : Dict), dictFind? (dictUpdate m ps) k = some v := by
  induction ps with
  | nil =>
    obtain ⟨kv, hkv, _⟩ := hex
    exact absurd hkv (List.not_mem_nil kv)
  | cons kv ps ih =>
    intro m
    have hstep : dictUpdate m (kv :: ps) = dictUpdate (dictInsert m kv.1 kv.2) ps := rfl
    rw [hstep]
    by_cases hrest : ∃ kv2 ∈ ps, kv2.1 = k
    · exact ih (fun x hx => hall x (List.mem_cons_of_mem kv hx)) hrest
        (dictInsert m kv.1 kv.2)
    · have hkv1 : kv.1 = k := by
        obtain ⟨kv2, hkv2, hk2⟩ := hex
        rcases List.mem_cons.mp hkv2 with h | h
        · exact h ▸ hk2
        · exact absurd ⟨kv2, h, hk2⟩ hrest
      have hnowrite : ∀ kv2 ∈ ps, kv2.1 ≠ k := by
        intro kv2 hkv2 hk2
        exact hrest ⟨kv2, hkv2, hk2⟩
      rw [dictFind?_dictUpdate_of_no_write ps k hnowrite]
      rw [dictFind?_dictInsert]
      rw [if_pos hkv1.symm]
      exact congrArg some (hall kv (List.mem_cons_self kv ps) hkv1)

/-- The dynamic alias map resolves the dashed lowercase key of `N` to `N`
itself whenever no other name's dashed or apostrophe-stripped key collides
with it (later colliding names would overwrite the binding). -/
theorem get_actual_currencies_dashed_lookup (names : List Str) (N : Str)
    (hmem : N ∈ names)
    (hA : ∀ M ∈ names, dashed (pyLower M) = dashed (pyLower N) → M = N)
    (hB : ∀ M ∈ names, dashed_clean (pyLower M) = dashed (pyLower N) → M = N) :
    dictFind? (get_actual_currencies names) (dashed (pyLower N)) = some N := by
  unfold get_actual_currencies
  by_cases hw : ∃ M ∈ names, dashed_clean (pyLower M) = dashed (pyLower N)
  · apply dictFind?_dictUpdate_of_write
    · intro kv hkv hk1
      obtain ⟨M, hM, rfl⟩ := List.mem_map.mp hkv
      exact hB M hM hk1
    · obtain ⟨M, hM, hMk⟩ := hw
      exact ⟨(dashed_clean (pyLower M), M), List.mem_map_of_mem _ hM, hMk⟩
  · have hno : ∀ kv ∈ names.map (fun name =>
        (dashed_clean (pyLower name), name)), kv.1 ≠ dashed (pyLower N) := by
      intro kv hkv hk1
      obtain ⟨M, hM, rfl⟩ := List.mem_map.mp hkv
      exact hw ⟨M, hM, hk1⟩
    rw [dictFind?_dictUpdate_of_no_write _ _ hno]
    apply dictFind?_dictUpdate_of_write
    · intro kv hkv hk1
      obtain ⟨M, hM, rfl⟩ := List.mem_map.mp hkv
      exact hA M hM hk1
    · exact ⟨(dashed (pyLower N), N), List.mem_map_of_mem _ hmem, rfl⟩

/-- The strict price regex on a note of the shape `~price 1 <key>`, for a
nonempty key containing no spaces, captures
`(price, 1, key)`. -/
theorem searchPrice_price_one (key : Str) (hk : key ≠ [])
    (hns : ∀ c ∈ key, isPySpace c = false) :
    searchPrice .strict ((("~price 1 ").data) ++ key) =
      some ((("price").data), (("1").data), key) := by
  obtain ⟨c, k', rfl⟩ : ∃ c k', key = c :: k' := by
    cases key with
    | nil => exact absurd rfl hk
    | cons c k => exact ⟨c, k, rfl⟩
  have hc : isPySpace c = false := hns c (List.mem_cons_self c k')
  have htw : List.takeWhile (fun x => !(isPySpace x)) (c :: k') = c :: k' :=
    pyTakeWhile_all _ (fun x hx => by simp [hns x hx])
  have hsp2 : List.takeWhile isPySpace (c :: k') = [] := by
    rw [List.takeWhile_cons, hc]
    rfl
  have hdw : List.dropWhile isPySpace (c :: k') = c :: k' := by
    rw [List.dropWhile_cons, hc]
    rfl
  show searchPrice .strict
      ('~' :: ('p' :: 'r' :: 'i' :: 'c' :: 'e' :: ' ' :: '1' :: ' ' :: c :: k')) = _
  unfold searchPrice
  have hmatch : matchPriceAt .strict
      ('~' :: ('p' :: 'r' :: 'i' :: 'c' :: 'e' :: ' ' :: '1' :: ' ' :: c :: k')) =
      some ((("price").data), (("1").data), c :: k') := by
    unfold matchPriceAt
    have hpre : (("price").data).isPrefixOf
        ('p' :: 'r' :: 'i' :: 'c' :: 'e' :: ' ' :: '1' :: ' ' :: c :: k') = true := rfl
    simp only [hpre, if_true]
    have h1 : List.takeWhile isPySpace
        (' ' :: '1' :: ' ' :: c :: k') = [' '] := rfl
    have h2 : List.dropWhile isPySpace
        (' ' :: '1' :: ' ' :: c :: k') = '1' :: ' ' :: c :: k' := rfl
    have h3 : List.takeWhile isAmountChar ('1' :: ' ' :: c :: k') = ['1'] := rfl
    have h4 : List.dropWhile isAmountChar ('1' :: ' ' :: c :: k') =
        ' ' :: c :: k' := rfl
    have h5 : List.takeWhile isPySpace (' ' :: c :: k') = [' '] := by
      rw [List.takeWhile_cons]
      norm_num [isPySpace, hsp2]
    have h6 : List.dropWhile isPySpace (' ' :: c :: k') = c :: k' := by
      rw [List.dropWhile_cons]
      norm_num [isPySpace, hdw]
    simp only [List.drop_succ_cons, List.drop_zero, h1, h2, h3, h4, h5, h6, htw]
    simp
  rw [hmatch]

/-- C8 (amended): for a name `N` in the dynamic table whose dashed
lowercase key collides with no other name's dashed or
apostrophe-stripped key and is absent from the static alias tables, the
map installs `dashed(lower N)` bound to `N` and the round trip
`parse_note("~price 1 " + dashed(lower N))` yields `(1, N)`.  With
colliding keys, later names overwrite earlier bindings and the round trip
returns the colliding name instead (the counterexample). -/
theorem c8_alias_roundtrip_amended (off unoff : Dict) (names : List Str)
    (N : Str) (hmem : N ∈ names) (hne : N ≠ [])
    (hA : ∀ M ∈ names, dashed (pyLower M) = dashed (pyLower N) → M = N)
    (hB : ∀ M ∈ names, dashed_clean (pyLower M) = dashed (pyLower N) → M = N)
    (hoff : dictFind? off (dashed (pyLower N)) = none)
    (hunoff : dictFind? unoff (dashed (pyLower N)) = none) :
    dictFind? (get_actual_currencies names) (dashed (pyLower N)) = some N ∧
    parse_note off unoff (get_actual_currencies names) none
      (some ((("~price 1 ").data) ++ dashed (pyLower N))) = .ok (some (1, N)) := by
  have hlook := get_actual_currencies_dashed_lookup names N hmem hA hB
  refine ⟨hlook, ?_⟩
  have hkey_ne : dashed (pyLower N) ≠ [] := by
    intro h
    apply hne
    have : (pyLower N).length = 0 := by
      have := congrArg List.length h
      simpa [dashed] using this
    cases hN : pyLower N with
    | nil =>
      cases N with
      | nil => rfl
      | cons a l => exact absurd (congrArg List.length hN) (by simp [pyLower])
    | cons a l => rw [hN] at this; simp at this
  have hsearch := searchPrice_price_one (dashed (pyLower N)) hkey_ne
    (dashed_no_space (pyLower N))
  have hconv : convertAmount (("1").data) = .ok (some 1) := by decide
  have hlow : pyLower (dashed (pyLower N)) = dashed (pyLower N) :=
    pyLower_dashed_fix N
  simp only [parse_note, parse_note_one, hsearch, hconv, except_bind_ok, hlow,
    hoff, hunoff, hlook, except_pure]

/-- C8 (witness): with the single discovered name `Foo Bar` — whose
dashed key `foo-bar` collides with nothing and is not a static alias —
the amended theorem yields the claim's round trip:
`parse_note("~price 1 foo-bar")` returns `(1, Foo Bar)`. -/
theorem c8_alias_roundtrip_witness :
    dictFind? (get_actual_currencies [("Foo Bar").data])
      (dashed (pyLower (("Foo Bar").data))) = some (("Foo Bar").data) ∧
    parse_note OFFICIAL_CURRENCIES UNOFFICIAL_CURRENCIES
      (get_actual_currencies [("Foo Bar").data]) none
      (some ((("~price 1 ").data) ++ dashed (pyLower (("Foo Bar").data)))) =
      .ok (some (1, ("Foo Bar").data)) := by
  apply c8_alias_roundtrip_amended
  · exact List.mem_singleton_self _
  · decide
  · intro M hM h
    simpa using hM
  · intro M hM h
    simpa using hM
  · decide
  · decide

/-- C8 (counterexample): with the discovered names `A B` and `A-B` the
dashed lowercase key of `A B` is `a-b`, which is also the lowercase (and
dashed) key of `A-B`; the later name wins the dictionary, so the claim's
round trip for `N = A B` returns `(1, A-B)` instead of `(1, A B)`, and the
installed binding for `dashed(lower("A B"))` is `A-B`, not `A B`. -/
theorem c8_alias_roundtrip_counterexample :
    dashed (pyLower (("A B").data)) = ("a-b").data ∧
    dictFind? (get_actual_currencies c8names) (("a-b").data) = some (("A-B").data) ∧
    parse_note OFFICIAL_CURRENCIES UNOFFICIAL_CURRENCIES
      (get_actual_currencies c8names) none
      (some (("~price 1 a-b").data)) = .ok (some (1, ("A-B").data)) ∧
    ("A-B").data ≠ ("A B").data := by
  refine ⟨by decide, by decide, by decide, by decide⟩

/-- When no row of a block is skipped and the fold succeeds, the processed
count grows by exactly the block's length. -/
theorem block_fold_no_skip (cfg : Config) :
    ∀ (rows : List CurrencyQueryRow) (st : PState) (count : Nat)
      (last : Option Nat) (result : Nat × Option Nat × PState),
    (∀ r ∈ rows, (optStrTruthy r.Item.note || optStrTruthy r.stash) = true) →
    block_fold cfg st rows count last = .ok result →
    result.1 = count + rows.length := by
  intro rows
  induction rows with
  | nil =>
    intro st count last result _ h
    unfold block_fold at h
    injection h with h
    rw [← h]
    simp
  | cons row rows ih =>
    intro st count last result hns h
    unfold block_fold at h
    rw [hns row (List.mem_cons_self row rows)] at h
    simp only [Bool.not_true, Bool.false_eq_true, if_false] at h
    obtain ⟨⟨row_id, st₂⟩, hps, h⟩ := except_bind_ok_inv h
    dsimp only at h
    have := ih st₂ (count + 1) _ result
      (fun r hr => hns r (List.mem_cons_of_mem row hr)) h
    rw [this]
    simp
    omega

/-- The driver's block loop, on a stream none of whose rows are skipped:
the fetched rows are exactly the remainder of the sorted stream, one
commit happens per fetched block (including the final partial or empty
one), and the processed count is the remainder's length. -/
theorem pass_loop_no_skip (cfg : Config) (items : List ItemRow)
    (stashes : List StashRow) (start : Option Int)
    (hns : ∀ r ∈ currency_join_sorted items stashes start,
      (optStrTruthy r.Item.note || optStrTruthy r.stash) = true) :
    ∀ (fuel : Nat) (st : PState) (offset ap : Nat) (last : Option Nat)
      (commits : Nat) (fetched : List CurrencyQueryRow) (res : PassResult),
    pass_loop cfg items stashes start fuel st offset ap last commits fetched =
      .ok res →
    res.fetched = fetched ++ (currency_join_sorted items stashes start).drop offset ∧
    res.commits = commits +
      ((currency_join_sorted items stashes start).length - offset) / 1000 + 1 ∧
    res.all_processed = ap +
      ((currency_join_sorted items stashes start).length - offset) := by
  intro fuel
  induction fuel with
  | zero =>
    intro st offset ap last commits fetched res h
    exact absurd h (by simp [pass_loop])
  | succ fuel ih =>
    intro st offset ap last commits fetched res h
    unfold pass_loop at h
    dsimp only at h
    obtain ⟨⟨count, last₂, st₂⟩, hbf, h⟩ := except_bind_ok_inv h
    dsimp only at h
    have hblockmem : ∀ r ∈ currency_query items stashes start 1000 offset,
        (optStrTruthy r.Item.note || optStrTruthy r.stash) = true := by
      intro r hr
      apply hns
      exact List.drop_subset _ _ (List.take_subset _ _ hr)
    have hcount : count =
        (currency_query items stashes start 1000 offset).length := by
      have := block_fold_no_skip cfg _ st 0 last (count, last₂, st₂) hblockmem hbf
      simpa using this
    have hlen : (currency_query items stashes start 1000 offset).length =
        min 1000 ((currency_join_sorted items stashes start).length - offset) := by
      unfold currency_query
      rw [List.length_take, List.length_drop]
    by_cases h1000 : count = 1000
    · rw [if_pos h1000] at h
      obtain ⟨hfet, hcom, hall⟩ := ih st₂ (offset + count) (ap + count) last₂
        (commits + 1) (fetched ++ currency_query items stashes start 1000 offset)
        res h
      have hge : (currency_join_sorted items stashes start).length - offset ≥ 1000 := by
        rw [h1000] at hcount
        omega
      have hjoin : currency_query items stashes start 1000 offset ++
          (currency_join_sorted items stashes start).drop (offset + 1000) =
          (currency_join_sorted items stashes start).drop offset := by
        unfold currency_query
        rw [← List.drop_drop]
        exact List.take_append_drop 1000 _
      refine ⟨?_, ?_, ?_⟩
      · rw [hfet, h1000, List.append_assoc, hjoin]
      · rw [hcom, h1000]
        omega
      · rw [hall, h1000]
        omega
    · rw [if_neg h1000] at h
      injection h with h
      rw [← h]
      have hlt : (currency_join_sorted items stashes start).length - offset < 1000 := by
        omega
      have hfull : currency_query items stashes start 1000 offset =
          (currency_join_sorted items stashes start).drop offset := by
        unfold currency_query
        apply List.take_of_length_le
        rw [List.length_drop]
        omega
      refine ⟨?_, ?_, ?_⟩
      · rw [hfull]
      · have : ((currency_join_sorted items stashes start).length - offset) / 1000 = 0 :=
          Nat.div_eq_of_lt hlt
        simp [this]
      · rw [hcount, hfull]
        simp [List.length_drop]

set_option maxRecDepth 100000 in
/-- C1 (counterexample): 1001 items match the query's filter, the first of
them (and only it) carrying neither a note nor a stash name.  The first
block of 1000 rows is full, yet because the skipped row keeps the
processed count at 999 the pass terminates after that block — it does not
continue until a query returns a partial block — and the 1001st matching
item (id 1001) is never visited at all. -/
theorem c1_pass_pagination_counterexample :
    (currency_processor_single_pass c1cfg none ⟨[], [], 1⟩).map
        (fun r => (r.all_processed, r.commits, r.fetched.length,
                   (r.fetched.map (fun q => q.Item.id)).contains 1001)) =
      .ok (999, 1, 1000, false) ∧
    (currency_matching c1items [c1stash] none).length = 1001 ∧
    ((currency_matching c1items [c1stash] none).map
      (fun q => q.Item.id)).contains 1001 = true := by
  refine ⟨by decide, by decide, by decide⟩

/-- C1 (amended): blocks are fetched with LIMIT 1000 and explicit OFFSET
in ascending `(updated_at, created_at, id)` order and one COMMIT is issued
per fetched block, but the pass continues only while the count of
*processed* (non-skipped) rows in a block equals 1000; a full block
containing any skipped row therefore ends the pass early, and items beyond
it are not visited (the counterexample).  When no fetched row is skipped,
the pass does visit every item matching the filter exactly once, in sorted
order: its fetched rows are precisely the sorted filtered join — a
permutation of the matching rows — the number of commits is
`length/1000 + 1`, and every row is processed. -/
theorem c1_pass_pagination_amended (cfg : Config) (start : Option Int)
    (st : PState) (res : PassResult)
    (hns : ∀ r ∈ currency_join_sorted cfg.items cfg.stashes start,
      (optStrTruthy r.Item.note || optStrTruthy r.stash) = true)
    (h : currency_processor_single_pass cfg start st = .ok res) :
    res.fetched = currency_join_sorted cfg.items cfg.stashes start ∧
    res.fetched.Perm (currency_matching cfg.items cfg.stashes start) ∧
    List.Sorted itemKeyLe res.fetched ∧
    res.commits = (currency_join_sorted cfg.items cfg.stashes start).length / 1000 + 1 ∧
    res.all_processed = (currency_join_sorted cfg.items cfg.stashes start).length := by
  obtain ⟨hfet, hcom, hall⟩ := pass_loop_no_skip cfg cfg.items cfg.stashes start hns
    ((currency_join_sorted cfg.items cfg.stashes start).length + 1)
    st 0 0 none 0 [] res h
  simp only [List.drop_zero, List.nil_append, Nat.sub_zero, Nat.zero_add] at hfet hcom hall
  refine ⟨hfet, ?_, ?_, hcom, hall⟩
  · rw [hfet]
    exact List.perm_insertionSort itemKeyLe _
  · rw [hfet]
    exact List.sorted_insertionSort itemKeyLe _

/-- C1 (witness): the amended theorem applied to a three-item run in which
every row carries a note: the pass fetches all three matching rows in
order, processes all of them, and commits once. -/
theorem c1_pass_pagination_witness :
    ∃ res, currency_processor_single_pass c1witnessCfg none ⟨[], [], 1⟩ = .ok res ∧
      res.fetched.Perm (currency_matching c1witnessCfg.items c1witnessCfg.stashes none) ∧
      res.commits = 1 ∧ res.all_processed = 3 := by
  have hok : (currency_processor_single_pass c1witnessCfg none ⟨[], [], 1⟩).isOk = true := by
    decide
  cases hE : currency_processor_single_pass c1witnessCfg none ⟨[], [], 1⟩ with
  | error e =>
    rw [hE] at hok
    exact absurd hok (by simp [Except.isOk, Except.toBool])
  | ok res =>
    obtain ⟨hfet, hperm, hsorted, hcom, hall⟩ :=
      c1_pass_pagination_amended c1witnessCfg none ⟨[], [], 1⟩ res (by decide) hE
    refine ⟨res, rfl, hperm, ?_, ?_⟩
    · rw [hcom]
      decide
    · rw [hall]
      decide

end Poefixer
